import Mathlib

/-!
# Verification of the Suriza (Slitherlink) solver core

A shallow embedding of the solver from `src/algorithm.rs` and the data model
from `src/data/`.  Rust `Vec` becomes `List`, mutation becomes explicit state
passing (each routine returns the new edge grid together with its `changed`
flag), the unbounded `loop`/recursion of the driver, the constraint cascade
and the loop-closure walk take an explicit fuel argument (`none` = the fuel
ran out, i.e. the Rust code would still be running), and panics are modelled
as error values.
-/

namespace Suriza

/-- Edge state, from `src/data/edge.rs` (`Unknown`, `X`, `Line`). -/
inductive Edge
  | Unknown
  | X
  | Line
  deriving DecidableEq, Repr

/-- From `src/data/edge.rs`: `is_line`. -/
def Edge.is_line : Edge → Bool
  | .Line => true
  | _ => false

/-- From `src/data/edge.rs`: `is_unknown`. -/
def Edge.is_unknown : Edge → Bool
  | .Unknown => true
  | _ => false

/-- Cell clue, from `src/data/cell.rs`. -/
inductive Cell
  | Any
  | Zero
  | One
  | Two
  | Three
  deriving DecidableEq, Repr

/-- From `src/data/cell.rs`: `get_expected_line_count`. -/
def Cell.get_expected_line_count : Cell → Option Nat
  | .Any => none
  | .Zero => some 0
  | .One => some 1
  | .Two => some 2
  | .Three => some 3

/-- From `src/data/horizontal_direction.rs`. -/
inductive HorizontalDirection
  | East
  | West
  deriving DecidableEq, Repr

/-- From `src/data/horizontal_direction.rs`: `get_opposite`. -/
def HorizontalDirection.get_opposite : HorizontalDirection → HorizontalDirection
  | .East => .West
  | .West => .East

/-- From `src/data/vertical_direction.rs`. -/
inductive VerticalDirection
  | North
  | South
  deriving DecidableEq, Repr

/-- From `src/data/vertical_direction.rs`: `get_opposite`. -/
def VerticalDirection.get_opposite : VerticalDirection → VerticalDirection
  | .North => .South
  | .South => .North

/-- From `src/data/corner_direction.rs`. -/
structure CornerDirection where
  horizontal : HorizontalDirection
  vertical : VerticalDirection
  deriving DecidableEq, Repr

/-- From `src/data/corner_direction.rs`: the `ALL` constant, in source order. -/
def CornerDirection.ALL : List CornerDirection :=
  [⟨.East, .North⟩, ⟨.East, .South⟩, ⟨.West, .South⟩, ⟨.West, .North⟩]

/-- From `src/data/corner_direction.rs`: `get_opposite`. -/
def CornerDirection.get_opposite (d : CornerDirection) : CornerDirection :=
  ⟨d.horizontal.get_opposite, d.vertical.get_opposite⟩

/-- From `src/data/corner_direction.rs`: `get_adjacent` (the Rust `[Self; 2]`
becomes a two-element list). -/
def CornerDirection.get_adjacent (d : CornerDirection) : List CornerDirection :=
  let a : List CornerDirection := [⟨.East, .South⟩, ⟨.West, .North⟩]
  let b : List CornerDirection := [⟨.East, .North⟩, ⟨.West, .South⟩]
  if d ∈ a then b else a

/-- From `src/data/direction.rs`. -/
inductive Direction
  | Horizontal (h : HorizontalDirection)
  | Vertical (v : VerticalDirection)
  deriving DecidableEq, Repr

/-- From `src/data/direction.rs`: `iter_all`, in source order N, E, S, W. -/
def Direction.iter_all : List Direction :=
  [.Vertical .North, .Horizontal .East, .Vertical .South, .Horizontal .West]

/-- From `src/data/corner_direction.rs`: the `IntoIterator` impl — the
horizontal direction first, then the vertical one. -/
def CornerDirection.into_iter (d : CornerDirection) : List Direction :=
  [.Horizontal d.horizontal, .Vertical d.vertical]

/-- Modelled from the spec: `src/data/edge_direction.rs` is not under `src/`;
the enum's two variants `Horizontal` and `Vertical` are fixed by every use
site in `src/data/edge_index.rs` and `src/data/edges.rs` and by §3 of the
spec ("Edge — either horizontal ... or vertical"). -/
inductive EdgeDirection
  | Horizontal
  | Vertical
  deriving DecidableEq, Repr

/-- Modelled from the spec: `src/data/intersection_index.rs` is not under
`src/`; the struct's fields `row` and `column` are fixed by the literal
patterns in `src/data/edges.rs` and §3 of the spec (lattice point `(r,c)`). -/
structure IntersectionIndex where
  row : Nat
  column : Nat
  deriving DecidableEq, Repr

/-- From `src/data/edge_index.rs`. -/
structure EdgeIndex where
  direction : EdgeDirection
  row : Nat
  column : Nat
  deriving DecidableEq, Repr

/-- From `src/data/edge_index.rs`: `get_intersections` (the Rust
`[IntersectionIndex; 2]` becomes a pair, first endpoint first). -/
def EdgeIndex.get_intersections (e : EdgeIndex) : IntersectionIndex × IntersectionIndex :=
  match e.direction with
  | .Horizontal => (⟨e.row, e.column⟩, ⟨e.row, e.column + 1⟩)
  | .Vertical => (⟨e.row, e.column⟩, ⟨e.row + 1, e.column⟩)

/-- From `src/data/cell_index.rs`. -/
structure CellIndex where
  row : Nat
  column : Nat
  deriving DecidableEq, Repr

/-- From `src/data/cell_index.rs`: `index_intersection`. -/
def CellIndex.index_intersection (i : CellIndex) (d : CornerDirection) : IntersectionIndex :=
  ⟨match d.vertical with
    | .North => i.row
    | .South => i.row + 1,
   match d.horizontal with
    | .East => i.column + 1
    | .West => i.column⟩

/-- From `src/data/cell_index.rs`: `index_edge`. -/
def CellIndex.index_edge (i : CellIndex) (d : Direction) : EdgeIndex :=
  match d with
  | .Horizontal .East => ⟨.Vertical, i.row, i.column + 1⟩
  | .Horizontal .West => ⟨.Vertical, i.row, i.column⟩
  | .Vertical .North => ⟨.Horizontal, i.row, i.column⟩
  | .Vertical .South => ⟨.Horizontal, i.row + 1, i.column⟩

/-- From `src/data/cell_index.rs`: `index_edges` (N, E, S, W order). -/
def CellIndex.index_edges (i : CellIndex) : List EdgeIndex :=
  Direction.iter_all.map i.index_edge

/-- From `src/data/cell_index.rs`: `index_corner_edges`. -/
def CellIndex.index_corner_edges (i : CellIndex) (d : CornerDirection) : List EdgeIndex :=
  d.into_iter.map i.index_edge

/-- Modelled from the spec: `src/data/size.rs` is not under `src/`; the
fields `width` and `height` are fixed by the pattern in
`Edges::create_empty` and §3 of the spec. -/
structure Size where
  width : Nat
  height : Nat
  deriving DecidableEq, Repr

/-- From `src/data/cells.rs`. -/
structure Cells where
  rows : List (List Cell)
  deriving DecidableEq, Repr

/-- From `src/data/cells.rs`: `get_size` (Rust reads `rows[0]`; on the empty
list we return width 0, which the edge-grid constructor rejects just as the
Rust panic would abort). -/
def Cells.get_size (c : Cells) : Size :=
  ⟨(c.rows.headD []).length, c.rows.length⟩

/-- Row-major product of index ranges, as the Rust `iproduct!` macro. -/
def row_major (rows columns : Nat) : List (Nat × Nat) :=
  (List.range rows).flatMap fun r => (List.range columns).map fun c => (r, c)

/-- From `src/data/cells.rs`: `index_cells` (row-major). -/
def Cells.index_cells (c : Cells) : List CellIndex :=
  (row_major c.get_size.height c.get_size.width).map fun rc => ⟨rc.1, rc.2⟩

/-- From `src/data/cells.rs`: the `Index` impl `cells[&index]` (out-of-range
reads, which Rust would abort on, return `Any`; the solver never issues
them for well-formed grids). -/
def Cells.get (c : Cells) (i : CellIndex) : Cell :=
  (c.rows.getD i.row []).getD i.column .Any

/-- From `src/data/edges.rs`: the `Edges` struct. -/
structure Edges where
  horizontal : List (List Edge)
  vertical : List (List Edge)
  deriving DecidableEq, Repr

/-- Grid width as the Rust code reads it: `horizontal[0].len()`. -/
def Edges.width (e : Edges) : Nat :=
  (e.horizontal.headD []).length

/-- Grid height as the Rust code reads it: `vertical.len()`. -/
def Edges.height (e : Edges) : Nat :=
  e.vertical.length

/-- From `src/data/edges.rs`: the `Index` impl `edges[index]` (out-of-range
reads, which Rust would abort on, return `X`; the solver never issues them
for well-formed grids). -/
def Edges.get (es : Edges) (e : EdgeIndex) : Edge :=
  match e.direction with
  | .Horizontal => (es.horizontal.getD e.row []).getD e.column .X
  | .Vertical => (es.vertical.getD e.row []).getD e.column .X

/-- From `src/data/edges.rs`: the `IndexMut` impl `edges[index] = value`. -/
def Edges.set (es : Edges) (e : EdgeIndex) (value : Edge) : Edges :=
  match e.direction with
  | .Horizontal =>
      { es with horizontal :=
          es.horizontal.set e.row ((es.horizontal.getD e.row []).set e.column value) }
  | .Vertical =>
      { es with vertical :=
          es.vertical.set e.row ((es.vertical.getD e.row []).set e.column value) }

/-- The failure of `Edges::create_empty`.  The Rust code rejects a zero
dimension with `assert!`, which the spec (§6/§7) names the
`InvalidDimensions` error, "raised at construction". -/
inductive EdgesError
  | InvalidDimensions
  deriving DecidableEq, Repr

/-- From `src/data/edges.rs`: `create_empty`.  `assert!(width != 0)` and
`assert!(height != 0)` become the `InvalidDimensions` rejection. -/
def Edges.create_empty (s : Size) : Except EdgesError Edges :=
  if s.width = 0 ∨ s.height = 0 then
    .error .InvalidDimensions
  else
    .ok ⟨List.replicate (s.height + 1) (List.replicate s.width .Unknown),
         List.replicate s.height (List.replicate (s.width + 1) .Unknown)⟩

/-- From `src/data/edges.rs`: `index_adjacent_edge`. -/
def Edges.index_adjacent_edge (es : Edges) (i : IntersectionIndex) (d : Direction) :
    Option EdgeIndex :=
  match d with
  | .Horizontal .East =>
      if i.column < es.width then some ⟨.Horizontal, i.row, i.column⟩ else none
  | .Horizontal .West =>
      match i.column with
      | 0 => none
      | c + 1 => some ⟨.Horizontal, i.row, c⟩
  | .Vertical .North =>
      match i.row with
      | 0 => none
      | r + 1 => some ⟨.Vertical, r, i.column⟩
  | .Vertical .South =>
      if i.row < es.height then some ⟨.Vertical, i.row, i.column⟩ else none

/-- From `src/data/edges.rs`: `index_adjacent_edges` (N, E, S, W order). -/
def Edges.index_adjacent_edges (es : Edges) (i : IntersectionIndex) :
    List (Option EdgeIndex) :=
  Direction.iter_all.map (es.index_adjacent_edge i)

/-- From `src/data/edges.rs`: `index_adjacent_corner_edges` (the horizontal
direction's edge first, then the vertical direction's edge). -/
def Edges.index_adjacent_corner_edges (es : Edges) (i : IntersectionIndex)
    (d : CornerDirection) : List (Option EdgeIndex) :=
  [es.index_adjacent_edge i (.Horizontal d.horizontal),
   es.index_adjacent_edge i (.Vertical d.vertical)]

/-- From `src/data/edges.rs`: `index_edges` — all horizontal edges in
row-major order, then all vertical edges in row-major order. -/
def Edges.index_edges (es : Edges) : List EdgeIndex :=
  (row_major es.horizontal.length (es.horizontal.headD []).length).map
      (fun rc => (⟨.Horizontal, rc.1, rc.2⟩ : EdgeIndex))
    ++ (row_major es.vertical.length (es.vertical.headD []).length).map
      (fun rc => (⟨.Vertical, rc.1, rc.2⟩ : EdgeIndex))

/-- From `src/data/edges.rs`: `index_intersections` (row-major, inclusive
upper bounds). -/
def Edges.index_intersections (es : Edges) : List IntersectionIndex :=
  (row_major (es.height + 1) (es.width + 1)).map fun rc => ⟨rc.1, rc.2⟩

/-- From `src/data/edges.rs`: `index_adjacent_intersection`. -/
def Edges.index_adjacent_intersection (es : Edges) (i : IntersectionIndex)
    (d : Direction) : Option IntersectionIndex :=
  match d with
  | .Horizontal .East => some ⟨i.row, i.column + 1⟩
  | .Horizontal .West =>
      match i.column with
      | 0 => none
      | c + 1 => some ⟨i.row, c⟩
  | .Vertical .North =>
      match i.row with
      | 0 => none
      | r + 1 => some ⟨r, i.column⟩
  | .Vertical .South => some ⟨i.row + 1, i.column⟩

/-- From `src/data/edges.rs`: `follow_line`.  The Rust function takes the
previous intersection by reference; here `previous : Option IntersectionIndex`
so that the caller `would_close_loop` can pass its sentinel as `none`
(see `would_close_loop`), while `get_route` passes its concrete
`IntersectionIndex { row: 0, column: 0 }` as `some`. -/
def Edges.follow_line (es : Edges) (previous : Option IntersectionIndex)
    (i : IntersectionIndex) : Option IntersectionIndex :=
  (Direction.iter_all.filterMap fun d =>
    match es.index_adjacent_edge i d with
    | none => none
    | some e =>
        if (es.get e).is_line then
          match es.index_adjacent_intersection i d with
          | none => none
          | some next => if some next ≠ previous then some next else none
        else none).head?

/-- From `src/data/edges.rs`: `index_diagonally_from_intersection`. -/
def Edges.index_diagonally_from_intersection (es : Edges) (i : IntersectionIndex)
    (d : CornerDirection) : Option CellIndex :=
  match d.vertical, i.row with
  | .North, 0 => none
  | .North, r + 1 =>
      match d.horizontal, i.column with
      | .West, 0 => none
      | .West, c + 1 => some ⟨r, c⟩
      | .East, c => if c < es.width then some ⟨r, c⟩ else none
  | .South, r =>
      if r < es.height then
        match d.horizontal, i.column with
        | .West, 0 => none
        | .West, c + 1 => some ⟨r, c⟩
        | .East, c => if c < es.width then some ⟨r, c⟩ else none
      else none

/-- Modelled from the spec: `src/data/constraint.rs` is not under `src/`;
§4.3 of the spec defines the three constraint kinds `Line`, `NoCorner`
and `NoLine`, which match every use site in `src/algorithm.rs`. -/
inductive Constraint
  | Line
  | NoCorner
  | NoLine
  deriving DecidableEq, Repr

/-! ## The solver, from `src/algorithm.rs` -/

/-- From `src/algorithm.rs`: `count_edges`, counting `Line`s and `X`'s.
An index that is `none` (out of grid) counts as an `X`.  Call sites that
iterate plain `EdgeIndex` values wrap them with `List.map some`. -/
def count_edges (es : Edges) (indices : List (Option EdgeIndex)) : Nat × Nat :=
  indices.foldl
    (fun lx ix =>
      match ix with
      | none => (lx.1, lx.2 + 1)
      | some e =>
          match es.get e with
          | .Line => (lx.1 + 1, lx.2)
          | .X => (lx.1, lx.2 + 1)
          | .Unknown => lx)
    (0, 0)

/-- From `src/algorithm.rs`: `set_edges`.  The Rust body is
`indices.into_iter().any(...)`; `Iterator::any` short-circuits, so the
call writes `value` into the *first* `Unknown` edge only and returns
whether it wrote one. -/
def set_edges (es : Edges) (indices : List (Option EdgeIndex)) (value : Edge) :
    Edges × Bool :=
  match indices with
  | [] => (es, false)
  | none :: rest => set_edges es rest value
  | some e :: rest =>
      match es.get e with
      | .Unknown => (es.set e value, true)
      | _ => set_edges es rest value

/-- From `src/algorithm.rs`: `fill_cell`. -/
def fill_cell (cells : Cells) (es : Edges) (index : CellIndex) : Edges × Bool :=
  match (cells.get index).get_expected_line_count with
  | none => (es, false)
  | some expected_line_count =>
      let indices := index.index_edges.map some
      match count_edges es indices with
      | (line_count, x_count) =>
          if line_count = expected_line_count then
            set_edges es indices .X
          else if x_count = 4 - expected_line_count then
            set_edges es indices .Line
          else
            (es, false)

/-- From `src/algorithm.rs`: `fill_intersection`. -/
def fill_intersection (es : Edges) (index : IntersectionIndex) : Edges × Bool :=
  let indices := es.index_adjacent_edges index
  let line_count := (count_edges es indices).1
  match line_count with
  | 2 => set_edges es indices .X
  | _ => (es, false)

/-- The Rust pattern `iterator.any(|x| f(&mut edges, x))`: scan the list,
threading the edge grid, stopping at the first call that reports a change. -/
def run_any (f : Edges → α → Edges × Bool) : Edges → List α → Edges × Bool
  | es, [] => (es, false)
  | es, x :: xs =>
      match f es x with
      | (e2, true) => (e2, true)
      | (e2, false) => run_any f e2 xs

/-- From `src/algorithm.rs`: `fill_certain_values` — all cells (row-major),
then, only if no cell changed, all intersections. -/
def fill_certain_values (cells : Cells) (es : Edges) : Edges × Bool :=
  match run_any (fill_cell cells) es cells.index_cells with
  | (e2, true) => (e2, true)
  | (e2, false) => run_any fill_intersection e2 e2.index_intersections

mutual

/-- From `src/algorithm.rs`: `apply_constraint`.  The unbounded Rust
recursion carries a fuel argument; `none` means the fuel ran out. -/
def apply_constraint : Nat → Cells → Edges → Constraint → IntersectionIndex →
    CornerDirection → Option (Edges × Bool)
  | 0, _, _, _, _, _ => none
  | fuel + 1, cells, es, constraint, origin, to_ =>
      let near := es.index_adjacent_corner_edges origin to_
      let value : Option Edge :=
        match constraint, count_edges es near with
        | .Line, (1, 0) | .NoCorner, (1, 0) | .NoLine, (0, 1) => some .X
        | .Line, (0, 1) | .NoLine, (1, 0) => some .Line
        | _, _ => none
      match (match value with
             | none => (es, false)
             | some v => set_edges es near v : Edges × Bool) with
      | (e2, true) => some (e2, true)
      | (e2, false) =>
          match es.index_diagonally_from_intersection origin to_ with
          | none => some (e2, false)
          | some next_cell =>
              apply_constraint_to_cell fuel cells e2 constraint next_cell to_
termination_by structural fuel => fuel

/-- From `src/algorithm.rs`: the `adjacent_directions.iter().any(...)` loop
inside the `Two`/`NoLine` arm of `apply_constraint_to_cell` (it also
consumes a fuel step per list element, to keep the recursion structural). -/
def apply_adjacent : Nat → Cells → Edges → CellIndex → List CornerDirection →
    Option (Edges × Bool)
  | 0, _, _, _, _ => none
  | _ + 1, _, es, _, [] => some (es, false)
  | fuel + 1, cells, es, index, d :: rest =>
      match apply_constraint fuel cells es .Line (index.index_intersection d) d with
      | none => none
      | some (e2, true) => some (e2, true)
      | some (e2, false) => apply_adjacent fuel cells e2 index rest
termination_by structural fuel => fuel

/-- From `src/algorithm.rs`: `apply_constraint_to_cell`. -/
def apply_constraint_to_cell : Nat → Cells → Edges → Constraint → CellIndex →
    CornerDirection → Option (Edges × Bool)
  | 0, _, _, _, _, _ => none
  | fuel + 1, cells, es, constraint, index, to_ =>
      let near := (index.index_corner_edges to_.get_opposite).map some
      let far := (index.index_corner_edges to_).map some
      let next_intersection := index.index_intersection to_
      match count_edges es far, cells.get index with
      | (line_count, x_count), .One =>
          match constraint with
          | .Line => some (set_edges es far .X)
          | .NoLine => some (set_edges es near .X)
          | .NoCorner => some (es, false)
      | (line_count, x_count), .Two =>
          match constraint with
          | .Line =>
              if line_count > 0 then some (set_edges es far .X)
              else if x_count > 0 then some (set_edges es far .Line)
              else apply_constraint fuel cells es constraint next_intersection to_
          | .NoCorner =>
              apply_constraint fuel cells es constraint next_intersection to_
          | .NoLine =>
              if x_count > 0 then some (set_edges es near .Line)
              else
                match apply_adjacent fuel cells es index to_.get_adjacent with
                | none => none
                | some (e2, true) => some (e2, true)
                | some (e2, false) =>
                    apply_constraint fuel cells e2 .NoLine next_intersection to_
      | (line_count, x_count), .Three =>
          match constraint with
          | .Line => some (set_edges es far .Line)
          | .NoCorner => some (set_edges es far .Line)
          | .NoLine =>
              match set_edges es near .Line with
              | (e2, true) => some (e2, true)
              | (e2, false) =>
                  apply_constraint fuel cells e2 .Line next_intersection to_
      | _, _ => some (es, false)
termination_by structural fuel => fuel

end

/-- The Rust pattern `iterator.any(|x| f(&mut edges, x))` where `f` itself
may run out of fuel. -/
def run_any_opt (f : Edges → α → Option (Edges × Bool)) :
    Edges → List α → Option (Edges × Bool)
  | es, [] => some (es, false)
  | es, x :: xs =>
      match f es x with
      | none => none
      | some (e2, true) => some (e2, true)
      | some (e2, false) => run_any_opt f e2 xs

/-- From `src/algorithm.rs`: `check_cell_constraints` — the loop body for one
corner direction of one cell. -/
def check_cell_constraint (fuel : Nat) (cells : Cells) (index : CellIndex)
    (es : Edges) (direction : CornerDirection) : Option (Edges × Bool) :=
  let counts := count_edges es ((index.index_corner_edges direction).map some)
  let constraint : Option Constraint :=
    match cells.get index, counts with
    | .One, (0, 2) | .Two, (1, 1) => some .Line
    | .Two, (0, 1) => some .NoCorner
    | .Three, _ => some .NoCorner
    | _, _ => none
  match constraint with
  | none => some (es, false)
  | some constraint =>
      let direction := direction.get_opposite
      let intersection := index.index_intersection direction
      apply_constraint fuel cells es constraint intersection direction

/-- From `src/algorithm.rs`: `check_cell_constraints`. -/
def check_cell_constraints (fuel : Nat) (cells : Cells) (es : Edges)
    (index : CellIndex) : Option (Edges × Bool) :=
  run_any_opt (check_cell_constraint fuel cells index) es CornerDirection.ALL

/-- From `src/algorithm.rs`: `check_intersection_constraints` — the loop body
for one corner direction of one intersection. -/
def check_intersection_constraint (fuel : Nat) (cells : Cells)
    (index : IntersectionIndex) (es : Edges) (direction : CornerDirection) :
    Option (Edges × Bool) :=
  let counts := count_edges es (es.index_adjacent_corner_edges index direction)
  let constraint : Option Constraint :=
    match counts with
    | (1, 0) => some .NoCorner
    | (1, 1) => some .Line
    | (0, 2) => some .NoLine
    | _ => none
  match constraint with
  | none => some (es, false)
  | some constraint =>
      let to_ := direction.get_opposite
      apply_constraint fuel cells es constraint index to_

/-- From `src/algorithm.rs`: `check_intersection_constraints`. -/
def check_intersection_constraints (fuel : Nat) (cells : Cells) (es : Edges)
    (index : IntersectionIndex) : Option (Edges × Bool) :=
  run_any_opt (check_intersection_constraint fuel cells index) es CornerDirection.ALL

/-- From `src/algorithm.rs`: `check_constraints` — all cells (row-major),
then, only if no cell changed, all intersections. -/
def check_constraints (fuel : Nat) (cells : Cells) (es : Edges) :
    Option (Edges × Bool) :=
  match run_any_opt (check_cell_constraints fuel cells) es cells.index_cells with
  | none => none
  | some (e2, true) => some (e2, true)
  | some (e2, false) =>
      run_any_opt (check_intersection_constraints fuel cells) e2 e2.index_intersections

/-- The `while let Some(next) = edges.follow_line(..)` walk shared by
`would_close_loop`: returns the intersection the walk halts at, or `none`
if the fuel runs out (i.e. the Rust loop would still be running). -/
def walk_line : Nat → Edges → Option IntersectionIndex → IntersectionIndex →
    Option IntersectionIndex
  | 0, _, _, _ => none
  | fuel + 1, es, previous, index =>
      match es.follow_line previous index with
      | none => some index
      | some next => walk_line fuel es (some index) next

/-- From `src/algorithm.rs`: `would_close_loop`.

Modelled from the spec: the Rust code initialises `previous` with
`IntersectionIndex::default()`, but `src/data/intersection_index.rs` (and
with it the `Default` impl) is not under `src/`.  Spec §4.4 describes the
initial value as "a sentinel 'previous' that does not match any real
intersection", which is modelled as `none` (`follow_line` compares with
`some next ≠ previous`, so `none` matches no real intersection). -/
def would_close_loop (fuel : Nat) (es : Edges) (edge_index : EdgeIndex) :
    Option Bool :=
  let ends := edge_index.get_intersections
  (walk_line fuel es none ends.1).map fun halt => decide (halt = ends.2)

/-- From `src/algorithm.rs`: `check_loops` — scan all edges in order and
cross out the first `Unknown` edge whose line would close a loop. -/
def check_loops_scan (fuel : Nat) (es : Edges) :
    List EdgeIndex → Option (Edges × Bool)
  | [] => some (es, false)
  | e :: rest =>
      if (es.get e).is_unknown then
        match would_close_loop fuel es e with
        | none => none
        | some true => some (es.set e .X, true)
        | some false => check_loops_scan fuel es rest
      else
        check_loops_scan fuel es rest

/-- From `src/algorithm.rs`: `check_loops`. -/
def check_loops (fuel : Nat) (es : Edges) : Option (Edges × Bool) :=
  check_loops_scan fuel es es.index_edges

/-- From `src/algorithm.rs`: the `loop` inside `solve`, with an iteration
budget as the first argument and the fuel handed to the constraint cascade
and the loop-closure walk as the second. -/
def solve_loop : Nat → Nat → Cells → Edges → Option Edges
  | 0, _, _, _ => none
  | n + 1, fuel, cells, es =>
      match fill_certain_values cells es with
      | (e1, true) => solve_loop n fuel cells e1
      | (e1, false) =>
          match check_constraints fuel cells e1 with
          | none => none
          | some (e2, true) => solve_loop n fuel cells e2
          | some (e2, false) =>
              match check_loops fuel e2 with
              | none => none
              | some (e3, true) => solve_loop n fuel cells e3
              | some (e3, false) => some e3

/-- From `src/algorithm.rs`: `solve`.  A single fuel value bounds the loop
iteration count, the cascade depth and the walk length; `none` means some
part ran out of fuel (or edge-grid construction rejected the dimensions,
where Rust would abort). -/
def solve (fuel : Nat) (cells : Cells) : Option Edges :=
  match Edges.create_empty cells.get_size with
  | .error _ => none
  | .ok es => solve_loop fuel fuel cells es

/-- Failure modes of `get_route`: `panicked` models the Rust
`.unwrap()` panic when no intersection has an incident line;
`out_of_fuel` means the walk loop would still be running. -/
inductive RouteError
  | panicked
  | out_of_fuel
  deriving DecidableEq, Repr

/-- From `src/data/edges.rs`: the `while let` walk inside `get_route`,
accumulating the visited intersections (Rust `route.push`). -/
def route_walk : Nat → Edges → IntersectionIndex → IntersectionIndex →
    List IntersectionIndex → Option (List IntersectionIndex)
  | 0, _, _, _, _ => none
  | fuel + 1, es, previous, index, route =>
      match es.follow_line (some previous) index with
      | none => some route
      | some next =>
          if some next = route.head? then some route
          else route_walk fuel es index next (route ++ [next])

/-- From `src/data/edges.rs`: `get_route`.  Starts at the first intersection
(row-major) with an incident `Line` edge — the `.unwrap()` panics when
there is none — walks the line, maps each intersection to
`(column, row)` and appends the first element again. -/
def get_route (fuel : Nat) (es : Edges) : Except RouteError (List (Nat × Nat)) :=
  match es.index_intersections.find? (fun i =>
      (es.index_adjacent_edges i).any fun oe =>
        match oe with
        | some e => (es.get e).is_line
        | none => false) with
  | none => .error .panicked
  | some start =>
      match route_walk fuel es ⟨0, 0⟩ start [start] with
      | none => .error .out_of_fuel
      | some visited =>
          let route := visited.map fun i => (i.column, i.row)
          match route with
          | [] => .ok []
          | first :: _ => .ok (route ++ [first])

/-! ## Derived notions used by the statements -/

/-- The number of `Line` edges incident to an intersection, counted the way
the solver counts them (`count_edges` over `index_adjacent_edges`). -/
def line_count (es : Edges) (i : IntersectionIndex) : Nat :=
  (count_edges es (es.index_adjacent_edges i)).1

/-- A rectangular edge grid: the shape `create_empty` produces. -/
def Edges.well_formed (es : Edges) : Prop :=
  es.horizontal.length = es.height + 1
    ∧ (∀ row ∈ es.horizontal, row.length = es.width)
    ∧ (∀ row ∈ es.vertical, row.length = es.width + 1)

instance (es : Edges) : Decidable es.well_formed :=
  inferInstanceAs (Decidable (_ ∧ _ ∧ _))

/-- Spec §4.4: the neighbour intersections reachable from `i` along a
`Line` edge, in the N, E, S, W scan order. -/
def line_neighbours (es : Edges) (i : IntersectionIndex) : List IntersectionIndex :=
  Direction.iter_all.filterMap fun d =>
    match es.index_adjacent_edge i d with
    | none => none
    | some e =>
        if (es.get e).is_line then es.index_adjacent_intersection i d
        else none

/-- Spec §4.4, one step of the path test: "following the unique `Line`
neighbour that is not the previous step" — defined only when that
neighbour is unique. -/
def spec_follow (es : Edges) (previous : Option IntersectionIndex)
    (i : IntersectionIndex) : Option IntersectionIndex :=
  match (line_neighbours es i).filter fun n => decide (some n ≠ previous) with
  | [n] => some n
  | _ => none

/-- Spec §4.4, the path test walk: walk "until the walk has no such
neighbour", returning where it halts (`none` = fuel ran out). -/
def spec_walk : Nat → Edges → Option IntersectionIndex → IntersectionIndex →
    Option IntersectionIndex
  | 0, _, _, _ => none
  | fuel + 1, es, previous, i =>
      match spec_follow es previous i with
      | none => some i
      | some next => spec_walk fuel es (some i) next

/-- Spec §4.4, the whole path test for endpoints `(u, v)`: walk from `u`,
"starting from a sentinel 'previous' that does not match any real
intersection" (`none`); the path exists iff the walk terminates at `v`. -/
def spec_loop_test (fuel : Nat) (es : Edges) (u v : IntersectionIndex) :
    Option Bool :=
  (spec_walk fuel es none u).map fun halt => decide (halt = v)

/-- Spec §4.4, the loop-closure scan with the spec's path test in place of
the code's walk: cross out the first `Unknown` edge whose endpoints are
already joined by a `Line` path. -/
def spec_check_loops_scan (fuel : Nat) (es : Edges) :
    List EdgeIndex → Option (Edges × Bool)
  | [] => some (es, false)
  | e :: rest =>
      if (es.get e).is_unknown then
        match spec_loop_test fuel es e.get_intersections.1 e.get_intersections.2 with
        | none => none
        | some true => some (es.set e .X, true)
        | some false => spec_check_loops_scan fuel es rest
      else
        spec_check_loops_scan fuel es rest

/-- Spec §4.4: the whole loop-closure check, spec side (all edges in the
code's scan order). -/
def spec_check_loops (fuel : Nat) (es : Edges) : Option (Edges × Bool) :=
  spec_check_loops_scan fuel es es.index_edges

/-- Spec §8 route closure: two route points that "differ in exactly one
coordinate by exactly one (orthogonal step)". -/
def unit_step (a b : Nat × Nat) : Prop :=
  (a.1 = b.1 ∧ (a.2 + 1 = b.2 ∨ b.2 + 1 = a.2))
    ∨ (a.2 = b.2 ∧ (a.1 + 1 = b.1 ∨ b.1 + 1 = a.1))

instance (a b : Nat × Nat) : Decidable (unit_step a b) :=
  inferInstanceAs (Decidable ((a.1 = b.1 ∧ (a.2 + 1 = b.2 ∨ b.2 + 1 = a.2))
    ∨ (a.2 = b.2 ∧ (a.1 + 1 = b.1 ∨ b.1 + 1 = a.1))))

/-! ## Concrete instances used by the claims -/

/-- The 1×1 grid whose only cell carries clue `Zero` (spec §8, scenario 1). -/
def cells_zero : Cells := ⟨[[.Zero]]⟩

/-- A 1×1 grid whose only cell carries clue `Three`. -/
def cells_three : Cells := ⟨[[.Three]]⟩

/-- The empty 1×1 edge grid. -/
def edges_empty_1x1 : Edges :=
  ⟨[[.Unknown], [.Unknown]], [[.Unknown, .Unknown]]⟩

/-- A well-formed 3×2 input on which the solver diverges. -/
def cells_bad : Cells :=
  ⟨[[.Any, .Three, .Three], [.Any, .Any, .Three]]⟩

/-- The edge grid the solver reaches on `cells_bad` after 13 deduction
steps; the next pass calls the loop-closure check, whose walk cycles. -/
def edges_stuck : Edges :=
  ⟨[[.X, .Line, .Line], [.Unknown, .X, .X], [.Unknown, .X, .Line]],
   [[.X, .Line, .Line, .Line], [.Unknown, .Unknown, .Line, .Line]]⟩

/-- The edge grid `solve` returns for `cells_zero`: all four edges `X`. -/
def edges_zero_result : Edges := ⟨[[.X], [.X]], [[.X, .X]]⟩

/-- The edge grid `solve` returns for `cells_three`: three `Line` edges
forming an open path, the south edge `X`. -/
def edges_three_result : Edges := ⟨[[.Line], [.X]], [[.Line, .Line]]⟩

/-- A 1×1 edge grid mid-solve: an open `Line` path N/W/E with the south
edge still `Unknown`.  The local fill is at a fixed point here and every
intersection has at most two incident `Line` edges, so the loop-closure
walk is exercised on a state the solver can actually reach. -/
def edges_c1 : Edges := ⟨[[.Line], [.Unknown]], [[.Line, .Line]]⟩

/-- The 1×1 clue-free grid. -/
def cells_any : Cells := ⟨[[.Any]]⟩

/-- The diverging walk of `would_close_loop` on `edges_stuck`, started on
edge `(Vertical, 1, 1)`: after three steps it enters a six-step cycle
around the loop of `Line` edges hanging off the degree-3 intersection
`(0, 2)`.  `walk_states n` is the walk state (previous, current) after
`n` steps. -/
def walk_states (n : Nat) : Option IntersectionIndex × IntersectionIndex :=
  let pre : List (Option IntersectionIndex × IntersectionIndex) :=
    [(none, ⟨1, 1⟩), (some ⟨1, 1⟩, ⟨0, 1⟩), (some ⟨0, 1⟩, ⟨0, 2⟩)]
  let cyc : List (Option IntersectionIndex × IntersectionIndex) :=
    [(some ⟨0, 2⟩, ⟨0, 3⟩), (some ⟨0, 3⟩, ⟨1, 3⟩), (some ⟨1, 3⟩, ⟨2, 3⟩),
     (some ⟨2, 3⟩, ⟨2, 2⟩), (some ⟨2, 2⟩, ⟨1, 2⟩), (some ⟨1, 2⟩, ⟨0, 2⟩)]
  if n < 3 then pre.getD n (none, ⟨0, 0⟩) else cyc.getD ((n - 3) % 6) (none, ⟨0, 0⟩)

/-! ## Basic lemmas about `set_edges` -/

/-- `set_edges` on a list of plain edge indices writes the first `Unknown`
edge (and only it), in list order. -/
theorem set_edges_map_some (es : Edges) (v : Edge) (l : List EdgeIndex) :
    set_edges es (l.map some) v =
      match l.find? (fun e => (es.get e).is_unknown) with
      | some e => (es.set e v, true)
      | none => (es, false) := by
  induction l with
  | nil => rfl
  | cons e rest ih =>
      rw [List.map_cons, set_edges, List.find?]
      cases h : es.get e <;> simp [Edge.is_unknown, h, ih]

/-- If `set_edges` reports no change, the edge grid is unchanged. -/
theorem set_edges_false (es : Edges) (v : Edge) (l : List (Option EdgeIndex))
    (h : (set_edges es l v).2 = false) : (set_edges es l v).1 = es := by
  induction l with
  | nil => rfl
  | cons ix rest ih =>
      match ix with
      | none => exact ih h
      | some e =>
          simp only [set_edges] at h ⊢
          cases hg : es.get e with
          | Unknown => rw [hg] at h; exact Bool.noConfusion h
          | X => rw [hg] at h; exact ih h
          | Line => rw [hg] at h; exact ih h

/-- `set_edges` reports a change whenever the list holds a present edge that
is currently `Unknown`. -/
theorem set_edges_true_of_unknown (es : Edges) (v : Edge)
    (l : List (Option EdgeIndex)) (e : EdgeIndex) (hmem : some e ∈ l)
    (hunk : es.get e = .Unknown) : (set_edges es l v).2 = true := by
  induction l with
  | nil => simp at hmem
  | cons ix rest ih =>
      match ix with
      | none =>
          rw [set_edges]
          exact ih (by simpa using hmem)
      | some e2 =>
          rw [set_edges]
          cases hg : es.get e2 with
          | Unknown => rfl
          | X =>
              rcases List.mem_cons.1 hmem with h | h
              · cases h; rw [hg] at hunk; cases hunk
              · exact ih h
          | Line =>
              rcases List.mem_cons.1 hmem with h | h
              · cases h; rw [hg] at hunk; cases hunk
              · exact ih h

/-! ## Fuel monotonicity

A fueled routine that returns a result keeps returning the same result
with more fuel; `none` only ever means "not enough fuel". -/

theorem cascade_mono (fuel : Nat) :
    (∀ cells es c o t r, apply_constraint fuel cells es c o t = some r →
        apply_constraint (fuel + 1) cells es c o t = some r)
      ∧ (∀ cells es i l r, apply_adjacent fuel cells es i l = some r →
          apply_adjacent (fuel + 1) cells es i l = some r)
      ∧ (∀ cells es c i t r, apply_constraint_to_cell fuel cells es c i t = some r →
          apply_constraint_to_cell (fuel + 1) cells es c i t = some r) := by
  induction fuel with
  | zero =>
      refine ⟨?_, ?_, ?_⟩
      · intro cells es c o t r h; exact Option.noConfusion h
      · intro cells es i l r h; exact Option.noConfusion h
      · intro cells es c i t r h; exact Option.noConfusion h
  | succ n ih =>
      obtain ⟨ihac, ihadj, ihcell⟩ := ih
      have hac : ∀ cells es c o t r, apply_constraint (n + 1) cells es c o t = some r →
          apply_constraint (n + 1 + 1) cells es c o t = some r := by
        intro cells es c o t r h
        simp only [apply_constraint] at h ⊢
        split at h
        next e2 heq => exact h
        next e2 heq =>
            cases hdiag : es.index_diagonally_from_intersection o t with
            | none => rw [hdiag] at h; exact h
            | some next_cell => rw [hdiag] at h; exact ihcell _ _ _ _ _ _ h
      have hadj : ∀ cells es i l r, apply_adjacent (n + 1) cells es i l = some r →
          apply_adjacent (n + 1 + 1) cells es i l = some r := by
        intro cells es i l r h
        match l with
        | [] => exact h
        | d :: rest =>
            simp only [apply_adjacent] at h ⊢
            cases hstep : apply_constraint n cells es .Line (i.index_intersection d) d with
            | none => rw [hstep] at h; exact Option.noConfusion h
            | some p =>
                rw [hstep] at h
                rw [ihac _ _ _ _ _ _ hstep]
                obtain ⟨e2, flag⟩ := p
                cases flag
                · exact ihadj _ _ _ _ _ h
                · exact h
      refine ⟨hac, hadj, ?_⟩
      intro cells es c i t r h
      simp only [apply_constraint_to_cell] at h ⊢
      split at h
      next lc xc =>
          split at h <;> exact h
      next lc xc =>
          match c with
          | .Line =>
              simp only at h ⊢
              split at h
              next hpos => rw [if_pos hpos]; exact h
              next hpos =>
                  rw [if_neg hpos]
                  split at h
                  next hx => rw [if_pos hx]; exact h
                  next hx => rw [if_neg hx]; exact ihac _ _ _ _ _ _ h
          | .NoCorner =>
              simp only at h ⊢
              exact ihac _ _ _ _ _ _ h
          | .NoLine =>
              simp only at h ⊢
              split at h
              next hx => rw [if_pos hx]; exact h
              next hx =>
                  rw [if_neg hx]
                  cases hstep : apply_adjacent n cells es i t.get_adjacent with
                  | none => rw [hstep] at h; exact Option.noConfusion h
                  | some p =>
                      rw [hstep] at h
                      rw [ihadj _ _ _ _ _ hstep]
                      obtain ⟨e2, flag⟩ := p
                      cases flag
                      · exact ihac _ _ _ _ _ _ h
                      · exact h
      next lc xc =>
          match c with
          | .Line => exact h
          | .NoCorner => exact h
          | .NoLine =>
              simp only at h ⊢
              cases hset : set_edges es ((CellIndex.index_corner_edges i t.get_opposite).map some) .Line with
              | mk e2 flag =>
                  rw [hset] at h
                  cases flag
                  · exact ihac _ _ _ _ _ _ h
                  · exact h
      next => exact h

/-- Lift a one-step fuel monotonicity property to any larger fuel. -/
theorem option_mono_ge {α : Type} (g : Nat → Option α)
    (hstep : ∀ n x, g n = some x → g (n + 1) = some x)
    {m n : Nat} (hle : m ≤ n) {x : α} (hm : g m = some x) : g n = some x := by
  induction n, hle using Nat.le_induction with
  | base => exact hm
  | succ n hle ih => exact hstep n x ih

theorem apply_constraint_mono {f g : Nat} (hle : f ≤ g) {cells es c o t r}
    (h : apply_constraint f cells es c o t = some r) :
    apply_constraint g cells es c o t = some r :=
  option_mono_ge (fun n => apply_constraint n cells es c o t)
    (fun n x hx => (cascade_mono n).1 _ _ _ _ _ _ hx) hle h

/-- If the element function is monotone in this sense, so is the scan. -/
theorem run_any_opt_mono {α : Type} {f g : Edges → α → Option (Edges × Bool)}
    (hfg : ∀ es x r, f es x = some r → g es x = some r) :
    ∀ es l r, run_any_opt f es l = some r → run_any_opt g es l = some r := by
  intro es l
  induction l generalizing es with
  | nil => intro r h; exact h
  | cons x xs ih =>
      intro r h
      simp only [run_any_opt] at h ⊢
      cases hstep : f es x with
      | none => rw [hstep] at h; exact Option.noConfusion h
      | some p =>
          rw [hstep] at h
          rw [hfg _ _ _ hstep]
          obtain ⟨e2, flag⟩ := p
          cases flag
          · exact ih e2 r h
          · exact h

theorem check_cell_constraint_mono {f g : Nat} (hle : f ≤ g) {cells index es d r}
    (h : check_cell_constraint f cells index es d = some r) :
    check_cell_constraint g cells index es d = some r := by
  simp only [check_cell_constraint] at h ⊢
  split at h
  · exact h
  · exact apply_constraint_mono hle h

theorem check_intersection_constraint_mono {f g : Nat} (hle : f ≤ g)
    {cells index es d r}
    (h : check_intersection_constraint f cells index es d = some r) :
    check_intersection_constraint g cells index es d = some r := by
  simp only [check_intersection_constraint] at h ⊢
  split at h
  · exact h
  · exact apply_constraint_mono hle h

theorem check_constraints_mono {f g : Nat} (hle : f ≤ g) {cells es r}
    (h : check_constraints f cells es = some r) :
    check_constraints g cells es = some r := by
  unfold check_constraints at h ⊢
  cases hstep : run_any_opt (check_cell_constraints f cells) es cells.index_cells with
  | none => rw [hstep] at h; exact Option.noConfusion h
  | some p =>
      rw [hstep] at h
      have hcells : run_any_opt (check_cell_constraints g cells) es cells.index_cells = some p := by
        refine run_any_opt_mono (fun es2 x r2 h2 => ?_) es cells.index_cells p hstep
        exact run_any_opt_mono (fun es3 d r3 h3 => check_cell_constraint_mono hle h3) es2 _ r2 h2
      rw [hcells]
      obtain ⟨e2, flag⟩ := p
      cases flag
      · exact run_any_opt_mono
          (fun es2 x r2 h2 => run_any_opt_mono
            (fun es3 d r3 h3 => check_intersection_constraint_mono hle h3) es2 _ r2 h2)
          e2 _ r h
      · exact h

theorem walk_line_mono_step :
    ∀ (n : Nat) (es : Edges) (p : Option IntersectionIndex) (i x : IntersectionIndex),
      walk_line n es p i = some x → walk_line (n + 1) es p i = some x := by
  intro n
  induction n with
  | zero => intro es p i x h; exact Option.noConfusion h
  | succ m ih =>
      intro es p i x h
      simp only [walk_line] at h ⊢
      cases hf : es.follow_line p i with
      | none => rw [hf] at h; exact h
      | some next => rw [hf] at h; exact ih es (some i) next x h

theorem walk_line_mono {f g : Nat} (hle : f ≤ g) {es p i x}
    (h : walk_line f es p i = some x) : walk_line g es p i = some x :=
  option_mono_ge (fun n => walk_line n es p i)
    (fun n y hy => walk_line_mono_step n es p i y hy) hle h

theorem would_close_loop_mono {f g : Nat} (hle : f ≤ g) {es e b}
    (h : would_close_loop f es e = some b) : would_close_loop g es e = some b := by
  simp only [would_close_loop] at h ⊢
  cases hw : walk_line f es none e.get_intersections.1 with
  | none => rw [hw] at h; exact Option.noConfusion h
  | some halt => rw [hw] at h; rw [walk_line_mono hle hw]; exact h

theorem check_loops_scan_mono {f g : Nat} (hle : f ≤ g) {es l r}
    (h : check_loops_scan f es l = some r) : check_loops_scan g es l = some r := by
  induction l with
  | nil => exact h
  | cons e rest ih =>
      simp only [check_loops_scan] at h ⊢
      split
      · split at h
        · cases hw : would_close_loop f es e with
          | none => rw [hw] at h; exact Option.noConfusion h
          | some b =>
              rw [hw] at h
              rw [would_close_loop_mono hle hw]
              cases b
              · exact ih h
              · exact h
        · exact absurd h (by simp_all)
      · split at h
        · exact absurd h (by simp_all)
        · exact ih h

theorem check_loops_mono {f g : Nat} (hle : f ≤ g) {es r}
    (h : check_loops f es = some r) : check_loops g es = some r :=
  check_loops_scan_mono hle h

/-! ## Monotone mutation: a known edge is never overwritten -/

/-- Setting one (`Unknown`) edge leaves every other edge untouched. -/
theorem Edges.get_set_ne (es : Edges) (e e2 : EdgeIndex) (v : Edge)
    (hne : e ≠ e2) : (es.set e v).get e2 = es.get e2 := by
  have inner : ∀ (ll : List (List Edge)) (r c r2 c2 : Nat),
      ¬(r = r2 ∧ c = c2) →
      ((ll.set r ((ll.getD r []).set c v)).getD r2 []).getD c2 Edge.X
        = (ll.getD r2 []).getD c2 Edge.X := by
    intro ll r c r2 c2 hrc
    by_cases hr : r = r2
    · subst hr
      have hc : c ≠ c2 := fun hc => hrc ⟨rfl, hc⟩
      by_cases hlen : r < ll.length
      · have h1 : (ll.set r ((ll.getD r []).set c v)).getD r [] = (ll.getD r []).set c v := by
          rw [List.getD_eq_getElem?_getD, List.getElem?_set_eq_of_lt _ hlen]
          rfl
        rw [h1]
        simp [List.getD_eq_getElem?_getD, List.getElem?_set_ne hc]
      · rw [List.set_eq_of_length_le (Nat.le_of_not_lt hlen)]
    · have h1 : (ll.set r ((ll.getD r []).set c v)).getD r2 [] = ll.getD r2 [] := by
        rw [List.getD_eq_getElem?_getD, List.getElem?_set_ne hr,
          ← List.getD_eq_getElem?_getD]
      rw [h1]
  rcases e with ⟨d, r, c⟩
  rcases e2 with ⟨d2, r2, c2⟩
  cases d <;> cases d2 <;> simp only [Edges.set, Edges.get]
  · exact inner es.horizontal r c r2 c2 fun hrc => hne (by simp [hrc.1, hrc.2])
  · exact inner es.vertical r c r2 c2 fun hrc => hne (by simp [hrc.1, hrc.2])

/-- `set_edges` writes only edges that are currently `Unknown`. -/
theorem set_edges_preserves (es : Edges) (l : List (Option EdgeIndex)) (v : Edge)
    (eidx : EdgeIndex) (hne : es.get eidx ≠ .Unknown) :
    (set_edges es l v).1.get eidx = es.get eidx := by
  induction l with
  | nil => rfl
  | cons ix rest ih =>
      match ix with
      | none => exact ih
      | some e =>
          simp only [set_edges]
          cases hg : es.get e with
          | Unknown =>
              have : e ≠ eidx := fun h => hne (h ▸ hg)
              exact Edges.get_set_ne es e eidx v this
          | X => exact ih
          | Line => exact ih

theorem fill_cell_preserves (cells : Cells) (es : Edges) (index : CellIndex)
    (eidx : EdgeIndex) (hne : es.get eidx ≠ .Unknown) :
    (fill_cell cells es index).1.get eidx = es.get eidx := by
  simp only [fill_cell]
  split
  · rfl
  · split
    · exact set_edges_preserves _ _ _ _ hne
    · split
      · exact set_edges_preserves _ _ _ _ hne
      · rfl

theorem fill_intersection_preserves (es : Edges) (index : IntersectionIndex)
    (eidx : EdgeIndex) (hne : es.get eidx ≠ .Unknown) :
    (fill_intersection es index).1.get eidx = es.get eidx := by
  simp only [fill_intersection]
  split
  · exact set_edges_preserves _ _ _ _ hne
  · rfl

theorem run_any_preserves {α : Type} (f : Edges → α → Edges × Bool)
    (hf : ∀ es x eidx, es.get eidx ≠ .Unknown → (f es x).1.get eidx = es.get eidx) :
    ∀ es l eidx, es.get eidx ≠ .Unknown →
      (run_any f es l).1.get eidx = es.get eidx := by
  intro es l
  induction l generalizing es with
  | nil => intro eidx h; rfl
  | cons x xs ih =>
      intro eidx h
      simp only [run_any]
      cases hstep : f es x with
      | mk e2 flag =>
          have h2 : e2.get eidx = es.get eidx := by
            have := hf es x eidx h
            rw [hstep] at this
            exact this
          cases flag
          · rw [ih e2 eidx (h2 ▸ h)]
            exact h2
          · exact h2

theorem fill_certain_values_preserves (cells : Cells) (es : Edges)
    (eidx : EdgeIndex) (hne : es.get eidx ≠ .Unknown) :
    (fill_certain_values cells es).1.get eidx = es.get eidx := by
  simp only [fill_certain_values]
  cases hstep : run_any (fill_cell cells) es cells.index_cells with
  | mk e2 flag =>
      have h2 : e2.get eidx = es.get eidx := by
        have := run_any_preserves (fill_cell cells)
          (fun es2 x eidx2 h2 => fill_cell_preserves cells es2 x eidx2 h2)
          es cells.index_cells eidx hne
        rw [hstep] at this
        exact this
      cases flag
      · rw [run_any_preserves fill_intersection
          (fun es2 x eidx2 h2 => fill_intersection_preserves es2 x eidx2 h2)
          e2 e2.index_intersections eidx (h2 ▸ hne)]
        exact h2
      · exact h2

/-- The set-or-no-op step at the head of `apply_constraint` preserves every
non-`Unknown` edge. -/
theorem set_value_preserves (es : Edges) (near : List (Option EdgeIndex))
    (p : Option Edge) (e2 : Edges) (flag : Bool)
    (h : (match p with
          | none => (es, false)
          | some v => set_edges es near v) = (e2, flag))
    (eidx : EdgeIndex) (hne : es.get eidx ≠ .Unknown) :
    e2.get eidx = es.get eidx := by
  cases p with
  | none =>
      cases h
      rfl
  | some v =>
      have h2 : set_edges es near v = (e2, flag) := h
      have := set_edges_preserves es near v eidx hne
      rw [h2] at this
      exact this

theorem cascade_preserves (fuel : Nat) :
    (∀ cells es c o t r eidx, apply_constraint fuel cells es c o t = some r →
        es.get eidx ≠ .Unknown → r.1.get eidx = es.get eidx)
      ∧ (∀ cells es i l r eidx, apply_adjacent fuel cells es i l = some r →
          es.get eidx ≠ .Unknown → r.1.get eidx = es.get eidx)
      ∧ (∀ cells es c i t r eidx, apply_constraint_to_cell fuel cells es c i t = some r →
          es.get eidx ≠ .Unknown → r.1.get eidx = es.get eidx) := by
  induction fuel with
  | zero =>
      refine ⟨?_, ?_, ?_⟩
      · intro cells es c o t r eidx h; exact Option.noConfusion h
      · intro cells es i l r eidx h; exact Option.noConfusion h
      · intro cells es c i t r eidx h; exact Option.noConfusion h
  | succ n ih =>
      obtain ⟨ihac, ihadj, ihcell⟩ := ih
      have hacp : ∀ cells es c o t r eidx, apply_constraint (n + 1) cells es c o t = some r →
          es.get eidx ≠ .Unknown → r.1.get eidx = es.get eidx := by
        intro cells es c o t r eidx h hne
        simp only [apply_constraint] at h
        split at h
        next e2 heq =>
            cases h
            exact set_value_preserves _ _ _ _ _ heq _ hne
        next e2 heq =>
            have h2 : e2.get eidx = es.get eidx :=
              set_value_preserves _ _ _ _ _ heq _ hne
            cases hdiag : es.index_diagonally_from_intersection o t with
            | none =>
                rw [hdiag] at h
                cases h
                exact h2
            | some next_cell =>
                rw [hdiag] at h
                rw [ihcell _ _ _ _ _ _ _ h (h2 ▸ hne)]
                exact h2
      have hadjp : ∀ cells es i l r eidx, apply_adjacent (n + 1) cells es i l = some r →
          es.get eidx ≠ .Unknown → r.1.get eidx = es.get eidx := by
        intro cells es i l r eidx h hne
        match l with
        | [] => cases h; rfl
        | d :: rest =>
            simp only [apply_adjacent] at h
            cases hstep : apply_constraint n cells es .Line (i.index_intersection d) d with
            | none => rw [hstep] at h; exact Option.noConfusion h
            | some p =>
                rw [hstep] at h
                have h2 : p.1.get eidx = es.get eidx := ihac _ _ _ _ _ _ _ hstep hne
                obtain ⟨e2, flag⟩ := p
                cases flag
                · rw [ihadj _ _ _ _ _ _ h (h2 ▸ hne)]
                  exact h2
                · cases h
                  exact h2
      refine ⟨hacp, hadjp, ?_⟩
      intro cells es c i t r eidx h hne
      simp only [apply_constraint_to_cell] at h
      split at h
      next lc xc =>
          split at h
          · cases h; exact set_edges_preserves _ _ _ _ hne
          · cases h; exact set_edges_preserves _ _ _ _ hne
          · cases h; rfl
      next lc xc =>
          match c with
          | .Line =>
              simp only at h
              split at h
              · cases h; exact set_edges_preserves _ _ _ _ hne
              · split at h
                · cases h; exact set_edges_preserves _ _ _ _ hne
                · exact ihac _ _ _ _ _ _ _ h hne
          | .NoCorner =>
              simp only at h
              exact ihac _ _ _ _ _ _ _ h hne
          | .NoLine =>
              simp only at h
              split at h
              · cases h; exact set_edges_preserves _ _ _ _ hne
              · cases hstep : apply_adjacent n cells es i t.get_adjacent with
                | none => rw [hstep] at h; exact Option.noConfusion h
                | some p =>
                    rw [hstep] at h
                    have h2 : p.1.get eidx = es.get eidx := ihadj _ _ _ _ _ _ hstep hne
                    obtain ⟨e2, flag⟩ := p
                    cases flag
                    · rw [ihac _ _ _ _ _ _ _ h (h2 ▸ hne)]
                      exact h2
                    · cases h
                      exact h2
      next lc xc =>
          match c with
          | .Line => cases h; exact set_edges_preserves _ _ _ _ hne
          | .NoCorner => cases h; exact set_edges_preserves _ _ _ _ hne
          | .NoLine =>
              simp only at h
              cases hset : set_edges es ((CellIndex.index_corner_edges i t.get_opposite).map some) .Line with
              | mk e2 flag =>
                  rw [hset] at h
                  have h2 : e2.get eidx = es.get eidx := by
                    have := set_edges_preserves es
                      ((CellIndex.index_corner_edges i t.get_opposite).map some) .Line eidx hne
                    rw [hset] at this
                    exact this
                  cases flag
                  · rw [ihac _ _ _ _ _ _ _ h (h2 ▸ hne)]
                    exact h2
                  · cases h
                    exact h2
      next =>
          cases h
          rfl

theorem run_any_opt_preserves {α : Type} (f : Edges → α → Option (Edges × Bool))
    (hf : ∀ es x r eidx, f es x = some r → es.get eidx ≠ .Unknown →
        r.1.get eidx = es.get eidx) :
    ∀ es l r eidx, run_any_opt f es l = some r → es.get eidx ≠ .Unknown →
      r.1.get eidx = es.get eidx := by
  intro es l
  induction l generalizing es with
  | nil => intro r eidx h hne; cases h; rfl
  | cons x xs ih =>
      intro r eidx h hne
      simp only [run_any_opt] at h
      cases hstep : f es x with
      | none => rw [hstep] at h; exact Option.noConfusion h
      | some p =>
          rw [hstep] at h
          have h2 : p.1.get eidx = es.get eidx := hf _ _ _ _ hstep hne
          obtain ⟨e2, flag⟩ := p
          cases flag
          · rw [ih _ _ _ h (h2 ▸ hne)]
            exact h2
          · cases h
            exact h2

theorem check_cell_constraint_preserves (fuel : Nat) (cells : Cells)
    (index : CellIndex) (es : Edges) (d : CornerDirection) (r : Edges × Bool)
    (eidx : EdgeIndex) (h : check_cell_constraint fuel cells index es d = some r)
    (hne : es.get eidx ≠ .Unknown) : r.1.get eidx = es.get eidx := by
  simp only [check_cell_constraint] at h
  split at h
  · cases h; rfl
  · exact (cascade_preserves fuel).1 _ _ _ _ _ _ _ h hne

theorem check_intersection_constraint_preserves (fuel : Nat) (cells : Cells)
    (index : IntersectionIndex) (es : Edges) (d : CornerDirection)
    (r : Edges × Bool) (eidx : EdgeIndex)
    (h : check_intersection_constraint fuel cells index es d = some r)
    (hne : es.get eidx ≠ .Unknown) : r.1.get eidx = es.get eidx := by
  simp only [check_intersection_constraint] at h
  split at h
  · cases h; rfl
  · exact (cascade_preserves fuel).1 _ _ _ _ _ _ _ h hne

theorem check_constraints_preserves (fuel : Nat) (cells : Cells) (es : Edges)
    (r : Edges × Bool) (eidx : EdgeIndex)
    (h : check_constraints fuel cells es = some r)
    (hne : es.get eidx ≠ .Unknown) : r.1.get eidx = es.get eidx := by
  simp only [check_constraints] at h
  cases hstep : run_any_opt (check_cell_constraints fuel cells) es cells.index_cells with
  | none => rw [hstep] at h; exact Option.noConfusion h
  | some p =>
      rw [hstep] at h
      have hcellp : ∀ es2 x r2 eidx2, check_cell_constraints fuel cells es2 x = some r2 →
          es2.get eidx2 ≠ .Unknown → r2.1.get eidx2 = es2.get eidx2 := by
        intro es2 x r2 eidx2 h2 hne2
        exact run_any_opt_preserves _
          (fun es3 d r3 eidx3 h3 hne3 =>
            check_cell_constraint_preserves fuel cells x es3 d r3 eidx3 h3 hne3)
          es2 _ r2 eidx2 h2 hne2
      have h2 : p.1.get eidx = es.get eidx :=
        run_any_opt_preserves _ hcellp es _ p eidx hstep hne
      obtain ⟨e2, flag⟩ := p
      cases flag
      · have hintp : ∀ es2 x r2 eidx2, check_intersection_constraints fuel cells es2 x = some r2 →
            es2.get eidx2 ≠ .Unknown → r2.1.get eidx2 = es2.get eidx2 := by
          intro es2 x r2 eidx2 h3 hne2
          exact run_any_opt_preserves _
            (fun es3 d r3 eidx3 h4 hne3 =>
              check_intersection_constraint_preserves fuel cells x es3 d r3 eidx3 h4 hne3)
            es2 _ r2 eidx2 h3 hne2
        rw [run_any_opt_preserves _ hintp e2 _ r eidx h (h2 ▸ hne)]
        exact h2
      · cases h
        exact h2

theorem check_loops_scan_preserves (fuel : Nat) (es : Edges)
    (l : List EdgeIndex) (r : Edges × Bool) (eidx : EdgeIndex)
    (h : check_loops_scan fuel es l = some r)
    (hne : es.get eidx ≠ .Unknown) : r.1.get eidx = es.get eidx := by
  induction l with
  | nil => cases h; rfl
  | cons e rest ih =>
      simp only [check_loops_scan] at h
      split at h
      next hunk =>
          cases hw : would_close_loop fuel es e with
          | none => rw [hw] at h; exact Option.noConfusion h
          | some b =>
              rw [hw] at h
              cases b
              · exact ih h
              · cases h
                have hu : es.get e = .Unknown := by
                  revert hunk
                  cases es.get e <;> simp [Edge.is_unknown]
                have he : e ≠ eidx := fun hcontra => hne (hcontra ▸ hu)
                exact Edges.get_set_ne es e eidx .X he
      next => exact ih h

theorem check_loops_preserves (fuel : Nat) (es : Edges) (r : Edges × Bool)
    (eidx : EdgeIndex) (h : check_loops fuel es = some r)
    (hne : es.get eidx ≠ .Unknown) : r.1.get eidx = es.get eidx :=
  check_loops_scan_preserves fuel es _ r eidx h hne

theorem solve_loop_preserves (n fuel : Nat) (cells : Cells) (es : Edges)
    (r : Edges) (eidx : EdgeIndex) (h : solve_loop n fuel cells es = some r)
    (hne : es.get eidx ≠ .Unknown) : r.get eidx = es.get eidx := by
  induction n generalizing es with
  | zero => exact Option.noConfusion h
  | succ m ih =>
      cases hfill : fill_certain_values cells es with
      | mk e1 flag1 =>
          have hp1 : e1.get eidx = es.get eidx := by
            have := fill_certain_values_preserves cells es eidx hne
            rw [hfill] at this
            exact this
          cases flag1
          · simp only [solve_loop, hfill] at h
            cases hcon : check_constraints fuel cells e1 with
            | none => rw [hcon] at h; exact Option.noConfusion h
            | some p =>
                obtain ⟨e2, flag2⟩ := p
                have hp2 : e2.get eidx = e1.get eidx :=
                  check_constraints_preserves fuel cells e1 (e2, flag2) eidx hcon
                    (hp1 ▸ hne)
                cases flag2
                · simp only [hcon] at h
                  cases hloop : check_loops fuel e2 with
                  | none => rw [hloop] at h; exact Option.noConfusion h
                  | some q =>
                      obtain ⟨e3, flag3⟩ := q
                      have hp3 : e3.get eidx = e2.get eidx :=
                        check_loops_preserves fuel e2 (e3, flag3) eidx hloop
                          (by rw [hp2, hp1]; exact hne)
                      cases flag3
                      · simp only [hloop] at h
                        cases h
                        rw [hp3, hp2, hp1]
                      · simp only [hloop] at h
                        rw [ih e3 h (by rw [hp3, hp2, hp1]; exact hne), hp3, hp2, hp1]
                · simp only [hcon] at h
                  rw [ih e2 h (by rw [hp2, hp1]; exact hne), hp2, hp1]
          · simp only [solve_loop, hfill] at h
            rw [ih e1 h (hp1 ▸ hne), hp1]

/-! ## Route walk geometry (for C8 / C10) -/

/-- A successful `follow_line` step lands on an orthogonally adjacent
intersection: in `(column, row)` coordinates the move is a unit step. -/
theorem follow_line_adjacent (es : Edges) (prev : Option IntersectionIndex)
    (i n : IntersectionIndex) (h : es.follow_line prev i = some n) :
    unit_step (i.column, i.row) (n.column, n.row) := by
  have key : ∀ d : Direction, ∀ m : IntersectionIndex,
      es.index_adjacent_intersection i d = some m →
      unit_step (i.column, i.row) (m.column, m.row) := by
    intro d m hm
    rcases i with ⟨r, c⟩
    match d with
    | .Horizontal .East =>
        cases hm
        exact Or.inr ⟨rfl, Or.inl rfl⟩
    | .Horizontal .West =>
        match c, hm with
        | c + 1, hm =>
            cases hm
            exact Or.inr ⟨rfl, Or.inr rfl⟩
    | .Vertical .North =>
        match r, hm with
        | r + 1, hm =>
            cases hm
            exact Or.inl ⟨rfl, Or.inr rfl⟩
    | .Vertical .South =>
        cases hm
        exact Or.inl ⟨rfl, Or.inl rfl⟩
  have hh : (Direction.iter_all.filterMap fun d =>
      match es.index_adjacent_edge i d with
      | none => none
      | some e =>
          if (es.get e).is_line then
            match es.index_adjacent_intersection i d with
            | none => none
            | some next => if some next ≠ prev then some next else none
          else none).head? = some n := h
  have hmem := List.mem_of_mem_head? (Option.mem_def.2 hh)
  obtain ⟨d, _, hfd⟩ := List.mem_filterMap.1 hmem
  split at hfd
  · exact Option.noConfusion hfd
  · split at hfd
    · split at hfd
      next hint => exact Option.noConfusion hfd
      next m hint =>
          split at hfd
          · cases hfd
            exact key d n hint
          · exact Option.noConfusion hfd
    · exact Option.noConfusion hfd

/-- The relation walked by `route_walk`, on intersection indices. -/
def route_step (a b : IntersectionIndex) : Prop :=
  unit_step (a.column, a.row) (b.column, b.row)

theorem route_walk_props :
    ∀ (fuel : Nat) (es : Edges) (prev idx : IntersectionIndex)
      (route visited : List IntersectionIndex),
      route_walk fuel es prev idx route = some visited →
      route ≠ [] → route.getLast? = some idx → List.Chain' route_step route →
      visited ≠ [] ∧ visited.head? = route.head? ∧ List.Chain' route_step visited := by
  intro fuel
  induction fuel with
  | zero => intro es prev idx route visited h; exact Option.noConfusion h
  | succ f ih =>
      intro es prev idx route visited h hne hlast hchain
      simp only [route_walk] at h
      cases hf : es.follow_line (some prev) idx with
      | none =>
          rw [hf] at h
          have h2 : some route = some visited := h
          cases h2
          exact ⟨hne, rfl, hchain⟩
      | some next =>
          rw [hf] at h
          have h3 : (if some next = route.head? then some route
              else route_walk f es idx next (route ++ [next])) = some visited := h
          by_cases hfirst : some next = route.head?
          · rw [if_pos hfirst] at h3
            have h2 : route = visited := Option.some.inj h3
            cases h2
            exact ⟨hne, rfl, hchain⟩
          · rw [if_neg hfirst] at h3
            have hne2 : route ++ [next] ≠ [] := by simp
            have hlast2 : (route ++ [next]).getLast? = some next := by simp
            have hchain2 : List.Chain' route_step (route ++ [next]) := by
              rw [List.chain'_append]
              refine ⟨hchain, List.chain'_singleton next, ?_⟩
              intro x hx y hy
              rw [hlast] at hx
              cases hx
              simp only [List.head?_cons, Option.mem_def, Option.some.injEq] at hy
              cases hy
              exact follow_line_adjacent es (some prev) idx next hf
            obtain ⟨hv1, hv2, hv3⟩ := ih es idx next (route ++ [next]) visited h3 hne2 hlast2 hchain2
            refine ⟨hv1, ?_, hv3⟩
            rw [hv2]
            cases route with
            | nil => exact absurd rfl hne
            | cons a rest => simp

/-! ## The diverging walk on `edges_stuck` -/

/-- A walk whose step function always advances along an eventually periodic
state sequence never halts, whatever the fuel. -/
theorem walk_line_diverges (es : Edges)
    (g : Nat → Option IntersectionIndex × IntersectionIndex)
    (hstep : ∀ n, es.follow_line (g n).1 (g n).2 = some ((g (n + 1)).2)
        ∧ (g (n + 1)).1 = some ((g n).2)) :
    ∀ fuel n, walk_line fuel es (g n).1 (g n).2 = none := by
  intro fuel
  induction fuel with
  | zero => intro n; rfl
  | succ f ih =>
      intro n
      simp only [walk_line]
      rw [(hstep n).1]
      have h2 := (hstep n).2
      rw [← h2]
      exact ih (n + 1)

/-- The concrete walk states do advance forever on `edges_stuck`. -/
theorem walk_states_step : ∀ n,
    edges_stuck.follow_line (walk_states n).1 (walk_states n).2
        = some ((walk_states (n + 1)).2)
      ∧ (walk_states (n + 1)).1 = some ((walk_states n).2) := by
  intro n
  match n with
  | 0 => exact ⟨by decide, by decide⟩
  | 1 => exact ⟨by decide, by decide⟩
  | 2 => exact ⟨by decide, by decide⟩
  | m + 3 =>
      have hs : walk_states (m + 3)
          = [((some ⟨0, 2⟩ : Option IntersectionIndex), (⟨0, 3⟩ : IntersectionIndex)),
             (some ⟨0, 3⟩, ⟨1, 3⟩), (some ⟨1, 3⟩, ⟨2, 3⟩),
             (some ⟨2, 3⟩, ⟨2, 2⟩), (some ⟨2, 2⟩, ⟨1, 2⟩),
             (some ⟨1, 2⟩, ⟨0, 2⟩)].getD (m % 6) (none, ⟨0, 0⟩) := by
        simp [walk_states]
      have hs2 : walk_states (m + 3 + 1)
          = [((some ⟨0, 2⟩ : Option IntersectionIndex), (⟨0, 3⟩ : IntersectionIndex)),
             (some ⟨0, 3⟩, ⟨1, 3⟩), (some ⟨1, 3⟩, ⟨2, 3⟩),
             (some ⟨2, 3⟩, ⟨2, 2⟩), (some ⟨2, 2⟩, ⟨1, 2⟩),
             (some ⟨1, 2⟩, ⟨0, 2⟩)].getD ((m + 1) % 6) (none, ⟨0, 0⟩) := by
        simp [walk_states]
      rw [hs, hs2]
      have h6 : m % 6 = 0 ∨ m % 6 = 1 ∨ m % 6 = 2 ∨ m % 6 = 3 ∨ m % 6 = 4 ∨ m % 6 = 5 := by
        omega
      rcases h6 with h | h | h | h | h | h <;>
        · have h1 : (m + 1) % 6 = (m % 6 + 1) % 6 := by omega
          rw [h1, h]
          exact ⟨by decide, by decide⟩

/-- On `edges_stuck`, the loop-closure test for edge `(Vertical, 1, 1)`
never returns: the walk from `(1, 1)` enters the cycle around the
degree-3 intersection `(0, 2)`. -/
theorem would_close_loop_stuck :
    ∀ fuel, would_close_loop fuel edges_stuck ⟨.Vertical, 1, 1⟩ = none := by
  intro fuel
  have h0 : walk_line fuel edges_stuck none ⟨1, 1⟩ = none :=
    walk_line_diverges edges_stuck walk_states walk_states_step fuel 0
  show Option.map (fun halt => decide (halt = (⟨2, 1⟩ : IntersectionIndex)))
      (walk_line fuel edges_stuck none ⟨1, 1⟩) = none
  rw [h0]
  rfl

/-- On `edges_stuck` the whole loop-closure pass never returns: the scan
reaches edge `(Vertical, 1, 1)` (the walks for the three `Unknown` edges
before it halt immediately) and then cycles forever. -/
theorem check_loops_stuck : ∀ fuel, check_loops fuel edges_stuck = none := by
  intro fuel
  cases fuel with
  | zero => rfl
  | succ f =>
      have hw1 : walk_line (f + 1) edges_stuck none ⟨1, 0⟩ = some ⟨1, 0⟩ := by
        simp only [walk_line]
        rw [show edges_stuck.follow_line none ⟨1, 0⟩ = none from rfl]
      have hw2 : walk_line (f + 1) edges_stuck none ⟨2, 0⟩ = some ⟨2, 0⟩ := by
        simp only [walk_line]
        rw [show edges_stuck.follow_line none ⟨2, 0⟩ = none from rfl]
      have h1 : would_close_loop (f + 1) edges_stuck ⟨.Horizontal, 1, 0⟩ = some false := by
        show Option.map (fun halt => decide (halt = (⟨1, 1⟩ : IntersectionIndex)))
            (walk_line (f + 1) edges_stuck none ⟨1, 0⟩) = some false
        rw [hw1]
        rfl
      have h2 : would_close_loop (f + 1) edges_stuck ⟨.Horizontal, 2, 0⟩ = some false := by
        show Option.map (fun halt => decide (halt = (⟨2, 1⟩ : IntersectionIndex)))
            (walk_line (f + 1) edges_stuck none ⟨2, 0⟩) = some false
        rw [hw2]
        rfl
      have h3 : would_close_loop (f + 1) edges_stuck ⟨.Vertical, 1, 0⟩ = some false := by
        show Option.map (fun halt => decide (halt = (⟨2, 0⟩ : IntersectionIndex)))
            (walk_line (f + 1) edges_stuck none ⟨1, 0⟩) = some false
        rw [hw1]
        rfl
      have h4 := would_close_loop_stuck (f + 1)
      show check_loops_scan (f + 1) edges_stuck edges_stuck.index_edges = none
      rw [show edges_stuck.index_edges =
        [⟨.Horizontal, 0, 0⟩, ⟨.Horizontal, 0, 1⟩, ⟨.Horizontal, 0, 2⟩,
         ⟨.Horizontal, 1, 0⟩, ⟨.Horizontal, 1, 1⟩, ⟨.Horizontal, 1, 2⟩,
         ⟨.Horizontal, 2, 0⟩, ⟨.Horizontal, 2, 1⟩, ⟨.Horizontal, 2, 2⟩,
         ⟨.Vertical, 0, 0⟩, ⟨.Vertical, 0, 1⟩, ⟨.Vertical, 0, 2⟩, ⟨.Vertical, 0, 3⟩,
         ⟨.Vertical, 1, 0⟩, ⟨.Vertical, 1, 1⟩, ⟨.Vertical, 1, 2⟩, ⟨.Vertical, 1, 3⟩] from rfl]
      simp only [check_loops_scan, h1, h2, h3, h4,
        show (edges_stuck.get ⟨.Horizontal, 0, 0⟩).is_unknown = false from rfl,
        show (edges_stuck.get ⟨.Horizontal, 0, 1⟩).is_unknown = false from rfl,
        show (edges_stuck.get ⟨.Horizontal, 0, 2⟩).is_unknown = false from rfl,
        show (edges_stuck.get ⟨.Horizontal, 1, 0⟩).is_unknown = true from rfl,
        show (edges_stuck.get ⟨.Horizontal, 1, 1⟩).is_unknown = false from rfl,
        show (edges_stuck.get ⟨.Horizontal, 1, 2⟩).is_unknown = false from rfl,
        show (edges_stuck.get ⟨.Horizontal, 2, 0⟩).is_unknown = true from rfl,
        show (edges_stuck.get ⟨.Horizontal, 2, 1⟩).is_unknown = false from rfl,
        show (edges_stuck.get ⟨.Horizontal, 2, 2⟩).is_unknown = false from rfl,
        show (edges_stuck.get ⟨.Vertical, 0, 0⟩).is_unknown = false from rfl,
        show (edges_stuck.get ⟨.Vertical, 0, 1⟩).is_unknown = false from rfl,
        show (edges_stuck.get ⟨.Vertical, 0, 2⟩).is_unknown = false from rfl,
        show (edges_stuck.get ⟨.Vertical, 0, 3⟩).is_unknown = false from rfl,
        show (edges_stuck.get ⟨.Vertical, 1, 0⟩).is_unknown = true from rfl,
        show (edges_stuck.get ⟨.Vertical, 1, 1⟩).is_unknown = true from rfl,
        show (edges_stuck.get ⟨.Vertical, 1, 2⟩).is_unknown = false from rfl,
        show (edges_stuck.get ⟨.Vertical, 1, 3⟩).is_unknown = false from rfl,
        if_true, if_false, Bool.false_eq_true, ite_false, ite_true]

/-- Unfold one driver iteration whose local fill reported a change. -/
theorem solve_loop_fill_step (n fuel : Nat) (cells : Cells) (es es2 : Edges)
    (hf : fill_certain_values cells es = (es2, true)) :
    solve_loop (n + 1) fuel cells es = solve_loop n fuel cells es2 := by
  simp only [solve_loop, hf]

/-- Unfold one driver iteration whose constraint check reported the change
(established at fuel 15 and lifted to the real fuel). -/
theorem solve_loop_con_step (n fuel : Nat) (cells : Cells) (es es2 : Edges)
    (hle : 15 ≤ fuel)
    (hf : fill_certain_values cells es = (es, false))
    (hc : check_constraints 15 cells es = some (es2, true)) :
    solve_loop (n + 1) fuel cells es = solve_loop n fuel cells es2 := by
  simp only [solve_loop, hf, check_constraints_mono hle hc]

/-- At `edges_stuck` the driver's next iteration never returns. -/
theorem solve_loop_stuck_step (n fuel : Nat) (hle : 15 ≤ fuel) :
    solve_loop (n + 1) fuel cells_bad edges_stuck = none := by
  simp only [solve_loop,
    show fill_certain_values cells_bad edges_stuck = (edges_stuck, false) from by decide,
    check_constraints_mono hle
      (show check_constraints 15 cells_bad edges_stuck = some (edges_stuck, false) from by decide),
    check_loops_stuck fuel]

/-- C6: the solver is not total: on the well-formed 3×2 input `cells_bad`
it diverges — no fuel at least 15 makes `solve` return (after 13
deductions the loop-closure walk enters a cycle and never halts). -/
theorem c6_solver_diverges : ∀ k : Nat, solve (k + 15) cells_bad = none := by
  intro k
  have hle : 15 ≤ k + 15 := by omega
  show solve_loop (k + 15) (k + 15) cells_bad (⟨[[.Unknown, .Unknown, .Unknown], [.Unknown, .Unknown, .Unknown], [.Unknown, .Unknown, .Unknown]], [[.Unknown, .Unknown, .Unknown, .Unknown], [.Unknown, .Unknown, .Unknown, .Unknown]]⟩ : Edges) = none
  refine Eq.trans (solve_loop_con_step (k + 14) (k + 15) cells_bad (⟨[[.Unknown, .Unknown, .Unknown], [.Unknown, .Unknown, .Unknown], [.Unknown, .Unknown, .Unknown]], [[.Unknown, .Unknown, .Unknown, .Unknown], [.Unknown, .Unknown, .Unknown, .Unknown]]⟩ : Edges)
    (⟨[[.Unknown, .Unknown, .Unknown], [.Unknown, .Unknown, .Unknown], [.Unknown, .Unknown, .Unknown]], [[.Unknown, .Unknown, .Unknown, .Unknown], [.Unknown, .Unknown, .Unknown, .Line]]⟩ : Edges) hle (by decide) (by decide)) ?_
  refine Eq.trans (solve_loop_con_step (k + 13) (k + 15) cells_bad (⟨[[.Unknown, .Unknown, .Unknown], [.Unknown, .Unknown, .Unknown], [.Unknown, .Unknown, .Unknown]], [[.Unknown, .Unknown, .Unknown, .Unknown], [.Unknown, .Unknown, .Unknown, .Line]]⟩ : Edges)
    (⟨[[.Unknown, .Unknown, .Unknown], [.Unknown, .Unknown, .Unknown], [.Unknown, .Unknown, .Line]], [[.Unknown, .Unknown, .Unknown, .Unknown], [.Unknown, .Unknown, .Unknown, .Line]]⟩ : Edges) hle (by decide) (by decide)) ?_
  refine Eq.trans (solve_loop_con_step (k + 12) (k + 15) cells_bad (⟨[[.Unknown, .Unknown, .Unknown], [.Unknown, .Unknown, .Unknown], [.Unknown, .Unknown, .Line]], [[.Unknown, .Unknown, .Unknown, .Unknown], [.Unknown, .Unknown, .Unknown, .Line]]⟩ : Edges)
    (⟨[[.Unknown, .Unknown, .Unknown], [.Unknown, .Unknown, .Unknown], [.Unknown, .Unknown, .Line]], [[.Unknown, .Line, .Unknown, .Unknown], [.Unknown, .Unknown, .Unknown, .Line]]⟩ : Edges) hle (by decide) (by decide)) ?_
  refine Eq.trans (solve_loop_con_step (k + 11) (k + 15) cells_bad (⟨[[.Unknown, .Unknown, .Unknown], [.Unknown, .Unknown, .Unknown], [.Unknown, .Unknown, .Line]], [[.Unknown, .Line, .Unknown, .Unknown], [.Unknown, .Unknown, .Unknown, .Line]]⟩ : Edges)
    (⟨[[.Unknown, .Line, .Unknown], [.Unknown, .Unknown, .Unknown], [.Unknown, .Unknown, .Line]], [[.Unknown, .Line, .Unknown, .Unknown], [.Unknown, .Unknown, .Unknown, .Line]]⟩ : Edges) hle (by decide) (by decide)) ?_
  refine Eq.trans (solve_loop_fill_step (k + 10) (k + 15) cells_bad (⟨[[.Unknown, .Line, .Unknown], [.Unknown, .Unknown, .Unknown], [.Unknown, .Unknown, .Line]], [[.Unknown, .Line, .Unknown, .Unknown], [.Unknown, .Unknown, .Unknown, .Line]]⟩ : Edges)
    (⟨[[.X, .Line, .Unknown], [.Unknown, .Unknown, .Unknown], [.Unknown, .Unknown, .Line]], [[.Unknown, .Line, .Unknown, .Unknown], [.Unknown, .Unknown, .Unknown, .Line]]⟩ : Edges) (by decide)) ?_
  refine Eq.trans (solve_loop_con_step (k + 9) (k + 15) cells_bad (⟨[[.X, .Line, .Unknown], [.Unknown, .Unknown, .Unknown], [.Unknown, .Unknown, .Line]], [[.Unknown, .Line, .Unknown, .Unknown], [.Unknown, .Unknown, .Unknown, .Line]]⟩ : Edges)
    (⟨[[.X, .Line, .Unknown], [.Unknown, .Unknown, .Unknown], [.Unknown, .Unknown, .Line]], [[.X, .Line, .Unknown, .Unknown], [.Unknown, .Unknown, .Unknown, .Line]]⟩ : Edges) hle (by decide) (by decide)) ?_
  refine Eq.trans (solve_loop_con_step (k + 8) (k + 15) cells_bad (⟨[[.X, .Line, .Unknown], [.Unknown, .Unknown, .Unknown], [.Unknown, .Unknown, .Line]], [[.X, .Line, .Unknown, .Unknown], [.Unknown, .Unknown, .Unknown, .Line]]⟩ : Edges)
    (⟨[[.X, .Line, .Unknown], [.Unknown, .Unknown, .Unknown], [.Unknown, .Unknown, .Line]], [[.X, .Line, .Unknown, .Line], [.Unknown, .Unknown, .Unknown, .Line]]⟩ : Edges) hle (by decide) (by decide)) ?_
  refine Eq.trans (solve_loop_fill_step (k + 7) (k + 15) cells_bad (⟨[[.X, .Line, .Unknown], [.Unknown, .Unknown, .Unknown], [.Unknown, .Unknown, .Line]], [[.X, .Line, .Unknown, .Line], [.Unknown, .Unknown, .Unknown, .Line]]⟩ : Edges)
    (⟨[[.X, .Line, .Unknown], [.Unknown, .Unknown, .X], [.Unknown, .Unknown, .Line]], [[.X, .Line, .Unknown, .Line], [.Unknown, .Unknown, .Unknown, .Line]]⟩ : Edges) (by decide)) ?_
  refine Eq.trans (solve_loop_fill_step (k + 6) (k + 15) cells_bad (⟨[[.X, .Line, .Unknown], [.Unknown, .Unknown, .X], [.Unknown, .Unknown, .Line]], [[.X, .Line, .Unknown, .Line], [.Unknown, .Unknown, .Unknown, .Line]]⟩ : Edges)
    (⟨[[.X, .Line, .Line], [.Unknown, .Unknown, .X], [.Unknown, .Unknown, .Line]], [[.X, .Line, .Unknown, .Line], [.Unknown, .Unknown, .Unknown, .Line]]⟩ : Edges) (by decide)) ?_
  refine Eq.trans (solve_loop_fill_step (k + 5) (k + 15) cells_bad (⟨[[.X, .Line, .Line], [.Unknown, .Unknown, .X], [.Unknown, .Unknown, .Line]], [[.X, .Line, .Unknown, .Line], [.Unknown, .Unknown, .Unknown, .Line]]⟩ : Edges)
    (⟨[[.X, .Line, .Line], [.Unknown, .Unknown, .X], [.Unknown, .Unknown, .Line]], [[.X, .Line, .Line, .Line], [.Unknown, .Unknown, .Unknown, .Line]]⟩ : Edges) (by decide)) ?_
  refine Eq.trans (solve_loop_fill_step (k + 4) (k + 15) cells_bad (⟨[[.X, .Line, .Line], [.Unknown, .Unknown, .X], [.Unknown, .Unknown, .Line]], [[.X, .Line, .Line, .Line], [.Unknown, .Unknown, .Unknown, .Line]]⟩ : Edges)
    (⟨[[.X, .Line, .Line], [.Unknown, .X, .X], [.Unknown, .Unknown, .Line]], [[.X, .Line, .Line, .Line], [.Unknown, .Unknown, .Unknown, .Line]]⟩ : Edges) (by decide)) ?_
  refine Eq.trans (solve_loop_fill_step (k + 3) (k + 15) cells_bad (⟨[[.X, .Line, .Line], [.Unknown, .X, .X], [.Unknown, .Unknown, .Line]], [[.X, .Line, .Line, .Line], [.Unknown, .Unknown, .Unknown, .Line]]⟩ : Edges)
    (⟨[[.X, .Line, .Line], [.Unknown, .X, .X], [.Unknown, .Unknown, .Line]], [[.X, .Line, .Line, .Line], [.Unknown, .Unknown, .Line, .Line]]⟩ : Edges) (by decide)) ?_
  refine Eq.trans (solve_loop_fill_step (k + 2) (k + 15) cells_bad (⟨[[.X, .Line, .Line], [.Unknown, .X, .X], [.Unknown, .Unknown, .Line]], [[.X, .Line, .Line, .Line], [.Unknown, .Unknown, .Line, .Line]]⟩ : Edges)
    (⟨[[.X, .Line, .Line], [.Unknown, .X, .X], [.Unknown, .X, .Line]], [[.X, .Line, .Line, .Line], [.Unknown, .Unknown, .Line, .Line]]⟩ : Edges) (by decide)) ?_
  exact solve_loop_stuck_step (k + 1) (k + 15) hle

/-! ## C7 — zero dimensions are rejected at construction -/

/-- C7: for every requested size with zero width or zero height, edge-grid
construction fails with `InvalidDimensions` at construction — and `solve`
on a cell grid of such a size stops there, before any solving step. -/
theorem c7_invalid_dimensions (s : Size) (h : s.width = 0 ∨ s.height = 0) :
    Edges.create_empty s = .error .InvalidDimensions
      ∧ ∀ fuel cells, Cells.get_size cells = s → solve fuel cells = none := by
  constructor
  · rw [Edges.create_empty, if_pos h]
  · intro fuel cells hc
    rw [solve, hc, Edges.create_empty, if_pos h]

/-- Witness for C7 at the concrete size 0×5. -/
theorem c7_invalid_dimensions_witness :
    ((⟨0, 5⟩ : Size).width = 0 ∨ (⟨0, 5⟩ : Size).height = 0)
      ∧ Edges.create_empty ⟨0, 5⟩ = .error .InvalidDimensions := by
  refine ⟨Or.inl rfl, (c7_invalid_dimensions ⟨0, 5⟩ (Or.inl rfl)).1⟩

/-! ## C2 / C3 — the 1×1 `Zero` puzzle: edges all `X`, route extraction panics -/

set_option maxHeartbeats 1000000 in
/-- C2: the solver does panic on a well-formed input.  On the 1×1 grid with
clue `Zero`, `solve` reaches the all-`Cross` fixed point, and route
extraction then hits the `.unwrap()` panic: no intersection has an
incident `Line` edge, whatever the walk fuel. -/
theorem c2_route_panics_on_zero :
    solve 12 cells_zero = some edges_zero_result
      ∧ ∀ fuel, get_route fuel edges_zero_result = .error .panicked :=
  ⟨rfl, fun _ => rfl⟩

set_option maxHeartbeats 1000000 in
/-- C3: on the 1×1 `Zero` puzzle the solver terminates with all four edges
`Cross`, but the extracted route is not the empty route the spec promises:
route extraction panics (`.unwrap()` on `None`). -/
theorem c3_zero_edges_but_route_panic :
    solve 12 cells_zero = some edges_zero_result
      ∧ (∀ e ∈ (⟨0, 0⟩ : CellIndex).index_edges, edges_zero_result.get e = Edge.X)
      ∧ ∀ fuel, get_route fuel edges_zero_result = .error .panicked :=
  ⟨rfl, by decide, fun _ => rfl⟩

/-! ## C9 — the `Three` cell treats `Line` and `NoCorner` identically -/

/-- C9 (amended): for a `Three` cell the cascade's action under `NoCorner`
is literally the action under `Line` — the same call
`set_edges(far, Line)` — so both return the same flag and the same grid.
(As C9's counterexample shows, that action sets the *first* `Unknown`
far-corner edge, not necessarily both.) -/
theorem c9_three_nocorner_eq_line (fuel : Nat) (cells : Cells) (es : Edges)
    (index : CellIndex) (to_ : CornerDirection) (h : cells.get index = .Three) :
    apply_constraint_to_cell fuel cells es .Line index to_
      = apply_constraint_to_cell fuel cells es .NoCorner index to_ := by
  cases fuel with
  | zero => rfl
  | succ n => rw [apply_constraint_to_cell, apply_constraint_to_cell, h]

/-- Witness for C9 at a concrete `Three` cell. -/
theorem c9_three_nocorner_eq_line_witness :
    cells_three.get ⟨0, 0⟩ = .Three
      ∧ apply_constraint_to_cell 5 cells_three edges_empty_1x1 .Line ⟨0, 0⟩ ⟨.East, .North⟩
          = apply_constraint_to_cell 5 cells_three edges_empty_1x1 .NoCorner ⟨0, 0⟩ ⟨.East, .North⟩ :=
  ⟨rfl, c9_three_nocorner_eq_line 5 cells_three edges_empty_1x1 ⟨0, 0⟩ ⟨.East, .North⟩ rfl⟩

/-- Counterexample for C9 as stated: on a `Three` cell with both far-corner
edges `Unknown`, the (identical) action sets only the first far-corner
edge to `Line`; the other stays `Unknown`, so neither constraint "sets
the two far-corner edges to Line" in that invocation. -/
theorem c9_counterexample :
    cells_three.get ⟨0, 0⟩ = Cell.Three
      ∧ (⟨0, 0⟩ : CellIndex).index_corner_edges ⟨.East, .North⟩
          = [⟨.Vertical, 0, 1⟩, ⟨.Horizontal, 0, 0⟩]
      ∧ apply_constraint_to_cell 5 cells_three edges_empty_1x1 .NoCorner ⟨0, 0⟩ ⟨.East, .North⟩
          = some (edges_empty_1x1.set ⟨.Vertical, 0, 1⟩ .Line, true)
      ∧ edges_empty_1x1.get ⟨.Horizontal, 0, 0⟩ = Edge.Unknown
      ∧ (edges_empty_1x1.set ⟨.Vertical, 0, 1⟩ .Line).get ⟨.Horizontal, 0, 0⟩ ≠ Edge.Line := by
  decide

/-! ## C4 — the per-cell fill sets one edge per invocation -/

/-- Counterexample for C4 as stated: on the 1×1 `Zero` cell over the empty
edge grid the line count equals the clue, yet a single invocation of
`fill_cell` crosses out only the first `Unknown` edge (the north edge);
the west edge is one of the cell's remaining `Unknown` edges and is still
`Unknown` afterwards. -/
theorem c4_counterexample :
    cells_zero.get ⟨0, 0⟩ = Cell.Zero
      ∧ (count_edges edges_empty_1x1 (((⟨0, 0⟩ : CellIndex).index_edges).map some)).1 = 0
      ∧ fill_cell cells_zero edges_empty_1x1 ⟨0, 0⟩
          = (edges_empty_1x1.set ⟨.Horizontal, 0, 0⟩ .X, true)
      ∧ (⟨.Vertical, 0, 0⟩ : EdgeIndex) ∈ (⟨0, 0⟩ : CellIndex).index_edges
      ∧ edges_empty_1x1.get ⟨.Vertical, 0, 0⟩ = Edge.Unknown
      ∧ (fill_cell cells_zero edges_empty_1x1 ⟨0, 0⟩).1.get ⟨.Vertical, 0, 0⟩ = Edge.Unknown := by
  decide

/-- C4 (amended): in a single invocation of `fill_cell`: a cell with clue
`Any` is left untouched; for a clue `k`, if the line count equals `k` the
*first* `Unknown` edge in N, E, S, W order is set to `Cross` (nothing
else changes, and nothing happens when no `Unknown` edge remains);
otherwise, if the cross count equals `4 − k`, the first `Unknown` edge is
set to `Line` likewise.  The driver's fixed point applies the rule again
until every remaining `Unknown` edge of the cell is set. -/
theorem c4_first_unknown_per_call (cells : Cells) (es : Edges) (index : CellIndex) :
    (cells.get index = .Any → fill_cell cells es index = (es, false))
      ∧ ∀ k, (cells.get index).get_expected_line_count = some k →
          (((count_edges es (index.index_edges.map some)).1 = k →
            fill_cell cells es index =
              match index.index_edges.find? (fun e => (es.get e).is_unknown) with
              | some e => (es.set e Edge.X, true)
              | none => (es, false))
          ∧ ((count_edges es (index.index_edges.map some)).1 ≠ k →
             (count_edges es (index.index_edges.map some)).2 = 4 - k →
            fill_cell cells es index =
              match index.index_edges.find? (fun e => (es.get e).is_unknown) with
              | some e => (es.set e Edge.Line, true)
              | none => (es, false))) := by
  constructor
  · intro h
    rw [fill_cell, h]
    rfl
  · intro k hk
    constructor
    · intro hl
      rw [fill_cell, hk]
      simp only [hl, if_pos rfl]
      exact set_edges_map_some es .X index.index_edges
    · intro hl hx
      rw [fill_cell, hk]
      simp only [if_neg hl, hx, if_pos rfl]
      exact set_edges_map_some es .Line index.index_edges

/-- Witness for C4 (amended) on the 1×1 `Zero` cell. -/
theorem c4_first_unknown_per_call_witness :
    (cells_zero.get ⟨0, 0⟩).get_expected_line_count = some 0
      ∧ (count_edges edges_empty_1x1 (((⟨0, 0⟩ : CellIndex).index_edges).map some)).1 = 0
      ∧ fill_cell cells_zero edges_empty_1x1 ⟨0, 0⟩
          = match (⟨0, 0⟩ : CellIndex).index_edges.find?
                (fun e => (edges_empty_1x1.get e).is_unknown) with
            | some e => (edges_empty_1x1.set e Edge.X, true)
            | none => (edges_empty_1x1, false) :=
  ⟨rfl, rfl,
    ((c4_first_unknown_per_call cells_zero edges_empty_1x1 ⟨0, 0⟩).2 0 rfl).1 rfl⟩

/-! ## C5: monotone writes -/

/-- C5: for every input cell grid, every phase of `solve` — the per-cell
local fill (with its intersection pass), the constraint cascade entered
through `check_constraints`, the loop-closure check `check_loops`, the
driver loop `solve_loop` and `solve` itself — only changes edges whose
current state is `Unknown`: an edge already `Line` or `X` keeps its state
in the result, and `set_edges` (the single primitive through which every
write goes) does too. -/
theorem c5_monotone_writes (cells : Cells) (es : Edges) (eidx : EdgeIndex)
    (hne : es.get eidx ≠ Edge.Unknown) :
    (∀ l v, (set_edges es l v).1.get eidx = es.get eidx)
      ∧ (fill_certain_values cells es).1.get eidx = es.get eidx
      ∧ (∀ fuel r, check_constraints fuel cells es = some r →
          r.1.get eidx = es.get eidx)
      ∧ (∀ fuel r, check_loops fuel es = some r → r.1.get eidx = es.get eidx)
      ∧ (∀ n fuel r, solve_loop n fuel cells es = some r →
          r.get eidx = es.get eidx) :=
  ⟨fun l v => set_edges_preserves es l v eidx hne,
   fill_certain_values_preserves cells es eidx hne,
   fun fuel r h => check_constraints_preserves fuel cells es r eidx h hne,
   fun fuel r h => check_loops_preserves fuel es r eidx h hne,
   fun n fuel r h => solve_loop_preserves n fuel cells es r eidx h hne⟩

theorem c5_monotone_writes_witness :
    edges_zero_result.get ⟨.Horizontal, 0, 0⟩ ≠ Edge.Unknown
      ∧ (fill_certain_values cells_zero edges_zero_result).1.get
          ⟨.Horizontal, 0, 0⟩ = edges_zero_result.get ⟨.Horizontal, 0, 0⟩
      ∧ (∀ r, check_loops 9 edges_zero_result = some r →
          r.1.get ⟨.Horizontal, 0, 0⟩ = edges_zero_result.get ⟨.Horizontal, 0, 0⟩) :=
  ⟨by decide,
   (c5_monotone_writes cells_zero edges_zero_result ⟨.Horizontal, 0, 0⟩
     (by decide)).2.1,
   fun r h => (c5_monotone_writes cells_zero edges_zero_result ⟨.Horizontal, 0, 0⟩
     (by decide)).2.2.2.1 9 r h⟩

/-! ## C8 / C10: the shape of every route `get_route` returns -/

/-- Any route `get_route` returns is the coordinate image of a non-empty
chain of `follow_line` steps, with its first coordinate appended again. -/
theorem get_route_ok_shape (fuel : Nat) (es : Edges) (r : List (Nat × Nat))
    (h : get_route fuel es = .ok r) :
    ∃ (visited : List IntersectionIndex) (first : Nat × Nat)
      (rest : List (Nat × Nat)),
      List.Chain' route_step visited
        ∧ visited.map (fun i => (i.column, i.row)) = first :: rest
        ∧ r = (first :: rest) ++ [first] := by
  simp only [get_route] at h
  split at h
  · exact Except.noConfusion h
  next start hfind =>
    split at h
    next hwalk => exact Except.noConfusion h
    next visited hwalk =>
      obtain ⟨hv1, hv2, hv3⟩ := route_walk_props fuel es ⟨0, 0⟩ start [start]
        visited hwalk (by simp) (by simp) (List.chain'_singleton start)
      cases hvl : visited.map (fun i => (i.column, i.row)) with
      | nil => exact absurd (by simpa using hvl) hv1
      | cons first rest =>
          rw [hvl] at h
          have h2 : Except.ok ((first :: rest) ++ [first]) =
              (Except.ok r : Except RouteError (List (Nat × Nat))) := h
          exact ⟨visited, first, rest, hv3, hvl, (Except.ok.inj h2).symm⟩

/-- C10: whenever `get_route` returns a route at all, that route is
non-empty — it has length at least 2 and its last element repeats its
first element, whether or not the `Line` edges form a closed loop. -/
theorem c10_route_closed_nonempty (fuel : Nat) (es : Edges)
    (r : List (Nat × Nat)) (h : get_route fuel es = .ok r) :
    2 ≤ r.length ∧ r.getLast? = r.head? := by
  obtain ⟨visited, first, rest, _, _, hr⟩ := get_route_ok_shape fuel es r h
  subst hr
  refine ⟨by simp, ?_⟩
  show ((first :: rest) ++ [first]).getLast? = ((first :: rest) ++ [first]).head?
  rw [List.getLast?_concat]
  rfl

theorem c10_route_closed_nonempty_witness :
    get_route 12 edges_three_result = .ok [(0, 0), (1, 0), (1, 1), (0, 0)]
      ∧ 2 ≤ ([(0, 0), (1, 0), (1, 1), (0, 0)] : List (Nat × Nat)).length
      ∧ ([(0, 0), (1, 0), (1, 1), (0, 0)] : List (Nat × Nat)).getLast? =
          ([(0, 0), (1, 0), (1, 1), (0, 0)] : List (Nat × Nat)).head? :=
  ⟨rfl, c10_route_closed_nonempty 12 edges_three_result _ rfl⟩

/-- C8, counterexample: on the solved 1×1 `Three` grid the `Line` edges
form an open path, and the route `get_route` extracts repeats its first
element at the end but closes with a diagonal step `(1,1) → (0,0)`, so
not every pair of consecutive elements is a unit orthogonal step. -/
theorem c8_counterexample :
    solve 12 cells_three = some edges_three_result
      ∧ get_route 12 edges_three_result = .ok [(0, 0), (1, 0), (1, 1), (0, 0)]
      ∧ ([(0, 0), (1, 0), (1, 1), (0, 0)] : List (Nat × Nat)).head? =
          ([(0, 0), (1, 0), (1, 1), (0, 0)] : List (Nat × Nat)).getLast?
      ∧ ¬ List.Chain' unit_step [(0, 0), (1, 0), (1, 1), (0, 0)] :=
  ⟨rfl, rfl, rfl, by
    intro hc
    rw [List.chain'_cons, List.chain'_cons, List.chain'_cons] at hc
    exact absurd hc.2.2.1 (by decide)⟩

/-- C8, amended: whenever `get_route` returns a route, the route's first
and last elements are equal, and every pair of consecutive elements
*except possibly the final closing pair* differs in exactly one
coordinate by exactly one — i.e. the route with its last element dropped
is chained by unit orthogonal steps.  (The closing step is orthogonal
exactly when the walked `Line` path is a closed loop; on open paths it is
the unconstrained jump back to the start.) -/
theorem c8_route_steps (fuel : Nat) (es : Edges) (r : List (Nat × Nat))
    (h : get_route fuel es = .ok r) :
    r.head? = r.getLast? ∧ List.Chain' unit_step r.dropLast := by
  obtain ⟨visited, first, rest, hchain, hmap, hr⟩ := get_route_ok_shape fuel es r h
  subst hr
  refine ⟨?_, ?_⟩
  · show some first = ((first :: rest) ++ [first]).getLast?
    rw [List.getLast?_concat]
  have hd : ((first :: rest) ++ [first]).dropLast = first :: rest := by
    rw [List.dropLast_concat]
  rw [hd, ← hmap]
  exact (List.chain'_map (fun i : IntersectionIndex => (i.column, i.row))).2 hchain

theorem c8_route_steps_witness :
    get_route 12 edges_three_result = .ok [(0, 0), (1, 0), (1, 1), (0, 0)]
      ∧ ([(0, 0), (1, 0), (1, 1), (0, 0)] : List (Nat × Nat)).head? =
          ([(0, 0), (1, 0), (1, 1), (0, 0)] : List (Nat × Nat)).getLast?
      ∧ List.Chain' unit_step
          ([(0, 0), (1, 0), (1, 1), (0, 0)] : List (Nat × Nat)).dropLast :=
  ⟨rfl, c8_route_steps 12 edges_three_result _ rfl⟩

/-! ## C1: the loop-closure walk against the path test of the spec -/

/-- `follow_line` is the head of the spec-side candidate list: the `Line`
neighbours that differ from the previous step, in N, E, S, W order. -/
theorem follow_line_eq_filter (es : Edges) (prev : Option IntersectionIndex)
    (i : IntersectionIndex) :
    es.follow_line prev i =
      ((line_neighbours es i).filter fun n => decide (some n ≠ prev)).head? := by
  rw [Edges.follow_line, line_neighbours, List.filter_filterMap]
  refine congrArg List.head? (List.filterMap_congr ?_)
  intro d _
  cases hedge : es.index_adjacent_edge i d with
  | none => simp [hedge]
  | some e =>
      cases hline : (es.get e).is_line with
      | false => simp [hedge, hline, Option.filter]
      | true =>
          cases hint : es.index_adjacent_intersection i d with
          | none => simp [hedge, hline, hint, Option.filter]
          | some n =>
              by_cases hp : some n ≠ prev
              · simp [hedge, hline, hint, hp, Option.filter]
              · simp [hedge, hline, hint, hp, Option.filter]

/-- Generalised-accumulator form of the `Line` count of `count_edges`. -/
theorem count_edges_go (es : Edges) :
    ∀ (l : List (Option EdgeIndex)) (ab : Nat × Nat),
      (l.foldl (fun lx ix =>
          match ix with
          | none => (lx.1, lx.2 + 1)
          | some e =>
              match es.get e with
              | .Line => (lx.1 + 1, lx.2)
              | .X => (lx.1, lx.2 + 1)
              | .Unknown => lx) ab).1 =
        ab.1 + l.countP fun o =>
          match o with
          | some e => (es.get e).is_line
          | none => false := by
  intro l
  induction l with
  | nil => intro ab; simp
  | cons o t ih =>
      intro ab
      rw [List.foldl_cons, List.countP_cons, ih]
      cases o with
      | none => simp
      | some e => cases hg : es.get e <;> simp [hg, Edge.is_line] <;> omega

/-- The first component of `count_edges` counts the present `Line` edges. -/
theorem count_edges_fst (es : Edges) (l : List (Option EdgeIndex)) :
    (count_edges es l).1 = l.countP fun o =>
      match o with
      | some e => (es.get e).is_line
      | none => false := by
  rw [count_edges]
  rw [count_edges_go es l (0, 0)]
  simp

/-- A present adjacent edge always comes with a present adjacent
intersection, direction by direction. -/
theorem adj_intersection_isSome (es : Edges) (i : IntersectionIndex)
    (d : Direction) (e : EdgeIndex)
    (h : es.index_adjacent_edge i d = some e) :
    (es.index_adjacent_intersection i d).isSome = true := by
  rcases i with ⟨r, c⟩
  match d with
  | .Horizontal .East => rfl
  | .Vertical .South => rfl
  | .Horizontal .West =>
      match c with
      | 0 => exact Option.noConfusion h
      | c + 1 => rfl
  | .Vertical .North =>
      match r with
      | 0 => exact Option.noConfusion h
      | r + 1 => rfl

/-- The spec-side neighbour list has exactly `line_count` elements. -/
theorem line_neighbours_length (es : Edges) (i : IntersectionIndex) :
    (line_neighbours es i).length = line_count es i := by
  rw [line_neighbours, line_count, count_edges_fst, Edges.index_adjacent_edges,
    List.length_filterMap_eq_countP, List.countP_map]
  congr 1
  funext d
  simp only [Function.comp]
  cases hedge : es.index_adjacent_edge i d with
  | none => simp [hedge]
  | some e =>
      cases hline : (es.get e).is_line with
      | false => simp [hedge, hline]
      | true =>
          have hs := adj_intersection_isSome es i d e hedge
          cases hint : es.index_adjacent_intersection i d with
          | none => rw [hint] at hs; exact Bool.noConfusion hs
          | some n => simp [hedge, hline, hint]

/-- In a well-formed grid a `Line` edge is in range. -/
theorem line_in_bounds (es : Edges) (hwf : es.well_formed) (e : EdgeIndex)
    (h : (es.get e).is_line = true) :
    match e.direction with
    | .Horizontal => e.row < es.height + 1 ∧ e.column < es.width
    | .Vertical => e.row < es.height ∧ e.column < es.width + 1 := by
  obtain ⟨h1, h2, h3⟩ := hwf
  rcases e with ⟨dir, r, c⟩
  cases dir with
  | Horizontal =>
      rw [Edges.get] at h
      by_cases hr : r < es.horizontal.length
      · rw [List.getD_eq_getElem _ _ hr] at h
        have hrowlen : (es.horizontal[r]).length = es.width :=
          h2 _ (List.getElem_mem hr)
        by_cases hc : c < (es.horizontal[r]).length
        · exact ⟨h1 ▸ hr, hrowlen ▸ hc⟩
        · rw [List.getD_eq_default _ _ (Nat.le_of_not_lt hc)] at h
          exact Bool.noConfusion h
      · rw [List.getD_eq_default _ _ (Nat.le_of_not_lt hr)] at h
        exact Bool.noConfusion h
  | Vertical =>
      rw [Edges.get] at h
      by_cases hr : r < es.vertical.length
      · rw [List.getD_eq_getElem _ _ hr] at h
        have hrowlen : (es.vertical[r]).length = es.width + 1 :=
          h3 _ (List.getElem_mem hr)
        by_cases hc : c < (es.vertical[r]).length
        · exact ⟨hr, hrowlen ▸ hc⟩
        · rw [List.getD_eq_default _ _ (Nat.le_of_not_lt hc)] at h
          exact Bool.noConfusion h
      · rw [List.getD_eq_default _ _ (Nat.le_of_not_lt hr)] at h
        exact Bool.noConfusion h

/-- Membership in `row_major` is coordinatewise range membership. -/
theorem mem_row_major (rows columns : Nat) (rc : Nat × Nat) :
    rc ∈ row_major rows columns ↔ rc.1 < rows ∧ rc.2 < columns := by
  rcases rc with ⟨r, c⟩
  simp [row_major]

/-- Membership in `index_intersections` is the pair of range bounds. -/
theorem mem_index_intersections (es : Edges) (i : IntersectionIndex) :
    i ∈ es.index_intersections ↔
      i.row < es.height + 1 ∧ i.column < es.width + 1 := by
  rcases i with ⟨r, c⟩
  simp only [Edges.index_intersections, List.mem_map]
  constructor
  · rintro ⟨rc, hmem, heq⟩
    obtain ⟨hb1, hb2⟩ := (mem_row_major _ _ rc).1 hmem
    injection heq with hr hc
    exact ⟨hr ▸ hb1, hc ▸ hb2⟩
  · rintro ⟨hb1, hb2⟩
    exact ⟨(r, c), (mem_row_major _ _ (r, c)).2 ⟨hb1, hb2⟩, rfl⟩

/-- Characterisation of the spec-side neighbour relation. -/
theorem mem_line_neighbours (es : Edges) (i n : IntersectionIndex) :
    n ∈ line_neighbours es i ↔ ∃ d ∈ Direction.iter_all, ∃ e,
      es.index_adjacent_edge i d = some e ∧ (es.get e).is_line = true ∧
      es.index_adjacent_intersection i d = some n := by
  rw [line_neighbours, List.mem_filterMap]
  constructor
  · rintro ⟨d, hd, hfd⟩
    refine ⟨d, hd, ?_⟩
    split at hfd
    · exact Option.noConfusion hfd
    next e hedge =>
        split at hfd
        next hline => exact ⟨e, hedge, hline, hfd⟩
        · exact Option.noConfusion hfd
  · rintro ⟨d, hd, e, hedge, hline, hint⟩
    refine ⟨d, hd, ?_⟩
    simp only [hedge, hline, if_true, hint]

/-- The spec-side neighbour relation is symmetric on well-formed grids. -/
theorem line_neighbours_symm (es : Edges) (hwf : es.well_formed)
    (i n : IntersectionIndex) (h : n ∈ line_neighbours es i) :
    i ∈ line_neighbours es n := by
  obtain ⟨d, _, e, hedge, hline, hint⟩ := (mem_line_neighbours es i n).1 h
  have hb := line_in_bounds es hwf e hline
  rcases i with ⟨r, c⟩
  rw [mem_line_neighbours]
  match d with
  | .Horizontal .East =>
      rw [Edges.index_adjacent_edge] at hedge
      split at hedge
      · cases hedge
        have hint2 : some (⟨r, c + 1⟩ : IntersectionIndex) = some n := hint
        cases hint2
        exact ⟨.Horizontal .West, by simp [Direction.iter_all],
          ⟨.Horizontal, r, c⟩, rfl, hline, rfl⟩
      · exact Option.noConfusion hedge
  | .Horizontal .West =>
      match c with
      | 0 => exact Option.noConfusion hedge
      | c + 1 =>
          have hedge2 : some (⟨.Horizontal, r, c⟩ : EdgeIndex) = some e := hedge
          cases hedge2
          have hint2 : some (⟨r, c⟩ : IntersectionIndex) = some n := hint
          cases hint2
          have hb2 : r < es.height + 1 ∧ c < es.width := hb
          refine ⟨.Horizontal .East, by simp [Direction.iter_all],
            ⟨.Horizontal, r, c⟩, ?_, hline, rfl⟩
          rw [Edges.index_adjacent_edge]
          simp only [if_pos hb2.2]
  | .Vertical .North =>
      match r with
      | 0 => exact Option.noConfusion hedge
      | r + 1 =>
          have hedge2 : some (⟨.Vertical, r, c⟩ : EdgeIndex) = some e := hedge
          cases hedge2
          have hint2 : some (⟨r, c⟩ : IntersectionIndex) = some n := hint
          cases hint2
          have hb2 : r < es.height ∧ c < es.width + 1 := hb
          refine ⟨.Vertical .South, by simp [Direction.iter_all],
            ⟨.Vertical, r, c⟩, ?_, hline, rfl⟩
          rw [Edges.index_adjacent_edge]
          simp only [if_pos hb2.1]
  | .Vertical .South =>
      rw [Edges.index_adjacent_edge] at hedge
      split at hedge
      · cases hedge
        have hint2 : some (⟨r + 1, c⟩ : IntersectionIndex) = some n := hint
        cases hint2
        exact ⟨.Vertical .North, by simp [Direction.iter_all],
          ⟨.Vertical, r, c⟩, rfl, hline, rfl⟩
      · exact Option.noConfusion hedge

/-- A spec-side neighbour is a real intersection of the grid. -/
theorem line_neighbour_valid (es : Edges) (hwf : es.well_formed)
    (i n : IntersectionIndex) (h : n ∈ line_neighbours es i) :
    n ∈ es.index_intersections := by
  obtain ⟨d, _, e, hedge, hline, hint⟩ := (mem_line_neighbours es i n).1 h
  have hb := line_in_bounds es hwf e hline
  rcases i with ⟨r, c⟩
  rw [mem_index_intersections]
  match d with
  | .Horizontal .East =>
      rw [Edges.index_adjacent_edge] at hedge
      split at hedge
      · cases hedge
        have hint2 : some (⟨r, c + 1⟩ : IntersectionIndex) = some n := hint
        cases hint2
        have hb2 : r < es.height + 1 ∧ c < es.width := hb
        exact ⟨hb2.1, by show c + 1 < es.width + 1; omega⟩
      · exact Option.noConfusion hedge
  | .Horizontal .West =>
      match c with
      | 0 => exact Option.noConfusion hedge
      | c + 1 =>
          have hedge2 : some (⟨.Horizontal, r, c⟩ : EdgeIndex) = some e := hedge
          cases hedge2
          have hint2 : some (⟨r, c⟩ : IntersectionIndex) = some n := hint
          cases hint2
          have hb2 : r < es.height + 1 ∧ c < es.width := hb
          exact ⟨hb2.1, by show c < es.width + 1; omega⟩
  | .Vertical .North =>
      match r with
      | 0 => exact Option.noConfusion hedge
      | r + 1 =>
          have hedge2 : some (⟨.Vertical, r, c⟩ : EdgeIndex) = some e := hedge
          cases hedge2
          have hint2 : some (⟨r, c⟩ : IntersectionIndex) = some n := hint
          cases hint2
          have hb2 : r < es.height ∧ c < es.width + 1 := hb
          exact ⟨by show r < es.height + 1; omega, hb2.2⟩
  | .Vertical .South =>
      rw [Edges.index_adjacent_edge] at hedge
      split at hedge
      · cases hedge
        have hint2 : some (⟨r + 1, c⟩ : IntersectionIndex) = some n := hint
        cases hint2
        have hb2 : r < es.height ∧ c < es.width + 1 := hb
        exact ⟨by show r + 1 < es.height + 1; omega, hb2.2⟩
      · exact Option.noConfusion hedge

/-- The first endpoint of a listed edge is a real intersection, and the
edge is among the adjacent edges of that endpoint. -/
theorem unknown_edge_start (es : Edges) (hwf : es.well_formed) (e : EdgeIndex)
    (he : e ∈ es.index_edges) :
    e.get_intersections.1 ∈ es.index_intersections
      ∧ some e ∈ es.index_adjacent_edges e.get_intersections.1 := by
  obtain ⟨h1, h2, h3⟩ := hwf
  rw [Edges.index_edges] at he
  rcases List.mem_append.1 he with hh | hv
  · obtain ⟨rc, hmem, heq⟩ := List.mem_map.1 hh
    obtain ⟨hb1, hb2⟩ := (mem_row_major _ _ rc).1 hmem
    cases heq
    refine ⟨(mem_index_intersections es _).2 ⟨h1 ▸ hb1, by
        show rc.2 < es.width + 1
        have hb2b : rc.2 < es.width := hb2
        omega⟩, ?_⟩
    rw [Edges.index_adjacent_edges]
    refine List.mem_map.2 ⟨.Horizontal .East, by simp [Direction.iter_all], ?_⟩
    show (if rc.2 < es.width
        then some (⟨.Horizontal, rc.1, rc.2⟩ : EdgeIndex) else none) =
      some ⟨.Horizontal, rc.1, rc.2⟩
    rw [if_pos (show rc.2 < es.width from hb2)]
  · obtain ⟨rc, hmem, heq⟩ := List.mem_map.1 hv
    obtain ⟨hb1, hb2⟩ := (mem_row_major _ _ rc).1 hmem
    cases heq
    have hvne : es.vertical ≠ [] := by
      intro hnil
      rw [hnil] at hb1
      exact Nat.not_lt_zero _ hb1
    have hhead : (es.vertical.headD []).length = es.width + 1 := by
      cases hv2 : es.vertical with
      | nil => exact absurd hv2 hvne
      | cons v t => exact h3 v (by rw [hv2]; exact List.mem_cons_self v t)
    refine ⟨(mem_index_intersections es _).2 ⟨by
        show rc.1 < es.height + 1
        have hb1b : rc.1 < es.vertical.length := hb1
        have hhv : es.height = es.vertical.length := rfl
        omega, by
        show rc.2 < es.width + 1
        rw [← hhead]
        exact hb2⟩, ?_⟩
    rw [Edges.index_adjacent_edges]
    refine List.mem_map.2 ⟨.Vertical .South, by simp [Direction.iter_all], ?_⟩
    show (if rc.1 < es.height
        then some (⟨.Vertical, rc.1, rc.2⟩ : EdgeIndex) else none) =
      some ⟨.Vertical, rc.1, rc.2⟩
    rw [if_pos (show rc.1 < es.height from hb1)]

/-- If a scan with the short-circuiting `any` pattern reports no change,
every element left the grid unchanged and reported no change. -/
theorem run_any_false_all {α : Type} (f : Edges → α → Edges × Bool)
    (hf : ∀ es x, (f es x).2 = false → (f es x).1 = es) :
    ∀ (l : List α) (es r : Edges), run_any f es l = (r, false) →
      r = es ∧ ∀ x ∈ l, (f es x).2 = false := by
  intro l
  induction l with
  | nil =>
      intro es r h
      have h2 : ((es, false) : Edges × Bool) = (r, false) := h
      injection h2 with h3 _
      exact ⟨h3.symm, by simp⟩
  | cons x xs ih =>
      intro es r h
      cases hfx : f es x with
      | mk e2 b =>
          cases b
          · simp only [run_any, hfx] at h
            have he2 : e2 = es := by
              have := hf es x (by rw [hfx])
              rw [hfx] at this
              exact this
            subst he2
            obtain ⟨hr, hall⟩ := ih e2 r h
            refine ⟨hr, ?_⟩
            intro y hy
            rcases List.mem_cons.1 hy with hy1 | hy2
            · cases hy1; rw [hfx]
            · exact hall y hy2
          · simp only [run_any, hfx] at h
            have : (true : Bool) = false := congrArg Prod.snd h
            exact Bool.noConfusion this

/-- `fill_cell` leaves the grid unchanged when it reports no change. -/
theorem fill_cell_false (cells : Cells) (es : Edges) (x : CellIndex)
    (h : (fill_cell cells es x).2 = false) : (fill_cell cells es x).1 = es := by
  rw [fill_cell] at h ⊢
  cases hexp : (cells.get x).get_expected_line_count with
  | none => simp only [hexp]
  | some expected =>
      simp only [hexp] at h ⊢
      cases hcnt : count_edges es (x.index_edges.map some) with
      | mk lc xc =>
          simp only [hcnt] at h ⊢
          by_cases hl : lc = expected
          · simp only [if_pos hl] at h ⊢
            exact set_edges_false es .X _ h
          · by_cases hx : xc = 4 - expected
            · simp only [if_neg hl, if_pos hx] at h ⊢
              exact set_edges_false es .Line _ h
            · simp only [if_neg hl, if_neg hx]

/-- `fill_intersection` leaves the grid unchanged when it reports no
change. -/
theorem fill_intersection_false (es : Edges) (i : IntersectionIndex)
    (h : (fill_intersection es i).2 = false) :
    (fill_intersection es i).1 = es := by
  simp only [fill_intersection] at h ⊢
  rcases hlc : (count_edges es (es.index_adjacent_edges i)).1 with _ | _ | _ | m <;>
    simp only [hlc] at h ⊢
  exact set_edges_false es .X _ h

/-- At a fixed point of the local fill, every intersection pass reports no
change on the grid itself. -/
theorem fill_fixed_intersections (cells : Cells) (es : Edges)
    (hfill : fill_certain_values cells es = (es, false)) :
    ∀ i ∈ es.index_intersections, (fill_intersection es i).2 = false := by
  rw [fill_certain_values] at hfill
  cases hrc : run_any (fill_cell cells) es cells.index_cells with
  | mk e2 b =>
      cases b
      · simp only [hrc] at hfill
        obtain ⟨he2, _⟩ := run_any_false_all (fill_cell cells)
          (fun es' x h => fill_cell_false cells es' x h) cells.index_cells es e2 hrc
        subst he2
        obtain ⟨_, hall⟩ := run_any_false_all fill_intersection
          (fun es' i h => fill_intersection_false es' i h)
          e2.index_intersections e2 e2 hfill
        exact hall
      · simp only [hrc] at hfill
        have : (true : Bool) = false := congrArg Prod.snd hfill
        exact Bool.noConfusion this

/-- Under the degree invariant the code walk and the spec walk agree: the
walk invariant is that the previous step (when real) is a `Line` neighbour
of the current intersection, and at the start the current intersection has
at most one `Line` neighbour. -/
theorem walk_line_eq_spec_walk (es : Edges) (hwf : es.well_formed)
    (hdeg : ∀ i ∈ es.index_intersections, line_count es i ≤ 2) :
    ∀ (fuel : Nat) (prev : Option IntersectionIndex) (cur : IntersectionIndex),
      cur ∈ es.index_intersections →
      (∀ p, prev = some p → p ∈ line_neighbours es cur) →
      (prev = none → (line_neighbours es cur).length ≤ 1) →
      walk_line fuel es prev cur = spec_walk fuel es prev cur := by
  intro fuel
  induction fuel with
  | zero => intro prev cur _ _ _; rfl
  | succ f ih =>
      intro prev cur hcur hprev hnone
      have hC : ((line_neighbours es cur).filter
          fun n => decide (some n ≠ prev)).length ≤ 1 := by
        cases prev with
        | none =>
            exact le_trans (List.length_filter_le _ _) (hnone rfl)
        | some p =>
            have hp := hprev p rfl
            have hlt : ((line_neighbours es cur).filter
                fun n => decide (some n ≠ some p)).length <
                  (line_neighbours es cur).length :=
              List.length_filter_lt_length_iff_exists.2
                ⟨p, hp, by simp⟩
            have h2 : (line_neighbours es cur).length ≤ 2 := by
              rw [line_neighbours_length]
              exact hdeg cur hcur
            omega
      rw [walk_line, spec_walk, follow_line_eq_filter, spec_follow]
      cases hCeq : (line_neighbours es cur).filter
          (fun n => decide (some n ≠ prev)) with
      | nil => rfl
      | cons n rest =>
          cases rest with
          | nil =>
              have hmemC : n ∈ (line_neighbours es cur).filter
                  (fun n => decide (some n ≠ prev)) := by
                rw [hCeq]
                exact List.mem_cons_self n []
              have hn : n ∈ line_neighbours es cur :=
                (List.mem_filter.1 hmemC).1
              show walk_line f es (some cur) n = spec_walk f es (some cur) n
              exact ih (some cur) n (line_neighbour_valid es hwf cur n hn)
                (fun p hp => by
                  cases hp
                  exact line_neighbours_symm es hwf cur n hn)
                (fun hno => Option.noConfusion hno)
          | cons m rest2 =>
              rw [hCeq] at hC
              simp at hC

/-- The loop-closure test of the code equals the path test of the spec on
every grid at a fill fixed point whose intersections all have degree at
most two. -/
theorem wcl_eq_spec (cells : Cells) (es : Edges) (hwf : es.well_formed)
    (hdeg : ∀ i ∈ es.index_intersections, line_count es i ≤ 2)
    (hfill : fill_certain_values cells es = (es, false))
    (e : EdgeIndex) (he : e ∈ es.index_edges) (hu : es.get e = Edge.Unknown)
    (fuel : Nat) :
    would_close_loop fuel es e =
      spec_loop_test fuel es e.get_intersections.1 e.get_intersections.2 := by
  obtain ⟨hmemI, hmemAdj⟩ := unknown_edge_start es hwf e he
  have hfix := fill_fixed_intersections cells es hfill
  have hdeg1 : line_count es e.get_intersections.1 ≤ 1 := by
    have hne2 : line_count es e.get_intersections.1 ≠ 2 := by
      intro h2
      have hfi := hfix _ hmemI
      have h2b : (count_edges es
          (es.index_adjacent_edges e.get_intersections.1)).1 = 2 := h2
      simp only [fill_intersection, h2b] at hfi
      rw [set_edges_true_of_unknown es .X _ e hmemAdj hu] at hfi
      exact Bool.noConfusion hfi
    have := hdeg _ hmemI
    omega
  simp only [would_close_loop, spec_loop_test]
  rw [walk_line_eq_spec_walk es hwf hdeg fuel none e.get_intersections.1 hmemI
    (fun p hp => Option.noConfusion hp)
    (fun _ => by rw [line_neighbours_length]; exact hdeg1)]

/-- The loop-closure scan of the code agrees with the spec-side scan on
every list of listed edges, given the per-edge test equivalence. -/
theorem check_loops_scan_eq_spec (fuel : Nat) (cells : Cells) (es : Edges)
    (hwf : es.well_formed)
    (hdeg : ∀ i ∈ es.index_intersections, line_count es i ≤ 2)
    (hfill : fill_certain_values cells es = (es, false)) :
    ∀ l : List EdgeIndex, (∀ e ∈ l, e ∈ es.index_edges) →
      check_loops_scan fuel es l = spec_check_loops_scan fuel es l := by
  intro l
  induction l with
  | nil => intro _; rfl
  | cons e rest ih =>
      intro hl
      rw [check_loops_scan, spec_check_loops_scan]
      cases hun : (es.get e).is_unknown with
      | false =>
          rw [if_neg (show ¬ ((false : Bool) = true) from fun h => Bool.noConfusion h),
            if_neg (show ¬ ((false : Bool) = true) from fun h => Bool.noConfusion h)]
          exact ih fun x hx => hl x (List.mem_cons_of_mem e hx)
      | true =>
          have hu : es.get e = Edge.Unknown := by
            cases hgg : es.get e with
            | Unknown => rfl
            | X => rw [hgg] at hun; exact Bool.noConfusion hun
            | Line => rw [hgg] at hun; exact Bool.noConfusion hun
          rw [if_pos (show (true : Bool) = true from rfl),
            if_pos (show (true : Bool) = true from rfl),
            wcl_eq_spec cells es hwf hdeg hfill e
              (hl e (List.mem_cons_self e rest)) hu fuel]
          cases spec_loop_test fuel es e.get_intersections.1
              e.get_intersections.2 with
          | none => rfl
          | some b =>
              cases b with
              | true => rfl
              | false => exact ih fun x hx => hl x (List.mem_cons_of_mem e hx)

set_option maxHeartbeats 1000000 in
/-- C1: on every edge grid at a fixed point of the local fill (the state
in which the driver runs the loop-closure check) in which every
intersection has at most two incident `Line` edges, the loop-closure test
of the code on each `Unknown` edge with endpoints `(u, v)` equals the path
test of the spec — walk from `u` by repeatedly following the unique `Line`
neighbour that is not the previous step, starting from a sentinel previous
that matches no real intersection, succeeding iff the walk ends at `v` —
and consequently `check_loops` performs exactly the spec-side scan,
crossing out the first `Unknown` edge whose endpoints are already joined
by a `Line` path. -/
theorem c1_loop_check_refines_spec (cells : Cells) (es : Edges)
    (hwf : es.well_formed)
    (hdeg : ∀ i ∈ es.index_intersections, line_count es i ≤ 2)
    (hfill : fill_certain_values cells es = (es, false)) :
    (∀ e ∈ es.index_edges, es.get e = Edge.Unknown → ∀ fuel : Nat,
        would_close_loop fuel es e =
          spec_loop_test fuel es e.get_intersections.1 e.get_intersections.2)
      ∧ ∀ fuel : Nat, check_loops fuel es = spec_check_loops fuel es := by
  refine ⟨fun e he hu fuel => wcl_eq_spec cells es hwf hdeg hfill e he hu fuel, ?_⟩
  intro fuel
  rw [check_loops, spec_check_loops]
  exact check_loops_scan_eq_spec fuel cells es hwf hdeg hfill
    es.index_edges (fun x hx => hx)

set_option maxHeartbeats 1000000 in
theorem c1_loop_check_refines_spec_witness :
    edges_c1.well_formed
      ∧ (∀ i ∈ edges_c1.index_intersections, line_count edges_c1 i ≤ 2)
      ∧ fill_certain_values cells_any edges_c1 = (edges_c1, false)
      ∧ (⟨.Horizontal, 1, 0⟩ : EdgeIndex) ∈ edges_c1.index_edges
      ∧ edges_c1.get ⟨.Horizontal, 1, 0⟩ = Edge.Unknown
      ∧ would_close_loop 9 edges_c1 ⟨.Horizontal, 1, 0⟩ =
          spec_loop_test 9 edges_c1
            (⟨.Horizontal, 1, 0⟩ : EdgeIndex).get_intersections.1
            (⟨.Horizontal, 1, 0⟩ : EdgeIndex).get_intersections.2
      ∧ check_loops 9 edges_c1 = spec_check_loops 9 edges_c1 :=
  ⟨by decide, by decide, by decide, by decide, rfl,
   (c1_loop_check_refines_spec cells_any edges_c1 (by decide) (by decide)
       (by decide)).1 ⟨.Horizontal, 1, 0⟩ (by decide) rfl 9,
   (c1_loop_check_refines_spec cells_any edges_c1 (by decide) (by decide)
       (by decide)).2 9⟩

end Suriza
